import Mathlib

/-!
# MySQL macro engine (`pkg/tsdb/mysql/macros.go`)

A shallow embedding of the macro engine and a verification of its specification.

Conventions of the embedding:

* a Go `string` is a `List Char`; every delimiter the engine looks at is an ASCII
  character, so positions count characters where Go counts bytes;
* a Go call that can panic (an index or a slice out of range) is a function into
  `Option`, and `none` is the panic;
* a Go `(string, error)` result is a `Result`, which also carries the query whose
  model the call may have written (the engine mutates it in place);
* `int64` values are integers; the two parsers of the Go library
  (`time.ParseDuration`, `strconv.ParseFloat`) are taken as a parameter `GoLib`.
-/

namespace Mysql

/-! ## Go library: strings -/

/-- The single quote character. -/
def squote : Char := Char.ofNat 39

/-- The double quote character. -/
def dquote : Char := Char.ofNat 34

/-- Go `strings.Split(s, sep)` for a one-character separator: the pieces between the
separators, in order; a string without separator (the empty one too) is one piece. -/
def strings.Split : List Char → Char → List (List Char)
  | [], _ => [[]]
  | c :: cs, sep =>
    if c = sep then [] :: strings.Split cs sep
    else
      match strings.Split cs sep with
      | [] => [[c]]
      | piece :: pieces => (c :: piece) :: pieces

/-- Go `strings.Trim(s, cutset)`: `s` without its leading and trailing characters that
belong to `cutset`. -/
def strings.Trim (s cutset : List Char) : List Char :=
  (s.dropWhile (fun c => cutset.contains c)).rdropWhile (fun c => cutset.contains c)

/-- Go `strings.HasPrefix(s, p)`. -/
def strings.HasPrefix (s p : List Char) : Bool := p.isPrefixOf s

/-- Go `strings.Join(elems, sep)`. -/
def strings.Join (elems : List (List Char)) (sep : List Char) : List Char :=
  sep.intercalate elems

/-- Go slice expression `s[lo:hi]`; panics unless `lo ≤ hi ≤ len(s)`. -/
def slice {α : Type} (s : List α) (lo hi : Nat) : Option (List α) :=
  if lo ≤ hi ∧ hi ≤ s.length then some ((s.drop lo).take (hi - lo)) else none

/-- Go slice expression `s[lo:]`; panics unless `lo ≤ len(s)`. -/
def sliceFrom {α : Type} (s : List α) (lo : Nat) : Option (List α) :=
  if lo ≤ s.length then some (s.drop lo) else none

/-! ## Go library: numbers and formatting -/

/-- The verb `%d` of `fmt.Sprintf` at an integer. -/
def fmtD (i : Int) : List Char :=
  if i < 0 then '-' :: Nat.toDigits 10 i.natAbs else Nat.toDigits 10 i.natAbs

/-- A `float64` value: a finite rational, negative zero, an infinity or a NaN. -/
inductive Float64 where
  | finite (q : ℚ)
  | negZero
  | inf (negative : Bool)
  | nan
  deriving DecidableEq

/-- Rounding of a rational to the nearest integer, ties to the even one. -/
def roundHalfEven (q : ℚ) : ℤ :=
  if q - ⌊q⌋ < 1 / 2 then ⌊q⌋
  else if 1 / 2 < q - ⌊q⌋ then ⌊q⌋ + 1
  else if ⌊q⌋ % 2 = 0 then ⌊q⌋ else ⌊q⌋ + 1

/-- Rounding of a rational to the nearest number with a 53-bit significand, ties to
even: the result of a `float64` operation whose exact value is `q` (in the range of
the normal numbers, which the durations of the engine never leave). -/
def round64 (q : ℚ) : ℚ :=
  if q = 0 then 0
  else (roundHalfEven (q / (2 : ℚ) ^ (Int.log 2 |q| - 52)) : ℚ) * (2 : ℚ) ^ (Int.log 2 |q| - 52)

/-- Go `time.Duration.Seconds`, on a duration counted in nanoseconds:
`float64(d / Second) + float64(d % Second) / 1e9`, the integer division truncating
toward zero. -/
def Duration.Seconds (d : Int) : Float64 :=
  .finite (round64 (round64 (Int.tdiv d 1000000000)
    + round64 (round64 (Int.tmod d 1000000000) / 1000000000)))

/-- The verb `%.0f` of `fmt.Sprintf`: the value rounded to an integer, ties to even,
in decimal, with the sign of the value. -/
def fmtF0 : Float64 → List Char
  | .finite q =>
    if q < 0 then '-' :: Nat.toDigits 10 (roundHalfEven (-q)).toNat
    else Nat.toDigits 10 (roundHalfEven q).toNat
  | .negZero => "-0".toList
  | .inf true => "-Inf".toList
  | .inf false => "+Inf".toList
  | .nan => "NaN".toList

/-- The two parsers of the Go library the engine calls. `ParseDuration` gives the
duration in nanoseconds, an `int64`; `none` is a parse error. -/
structure GoLib where
  ParseDuration : List Char → Option Int
  ParseFloat : List Char → Option Float64
  duration_int64 : ∀ s d, ParseDuration s = some d → -2 ^ 63 ≤ d ∧ d < 2 ^ 63

/-! ## Go library: the regular expression `sExpr` -/

/-- The character class `[_a-zA-Z0-9]` of `rsIdentifier`. -/
def isIdentifierChar (c : Char) : Bool :=
  c == '_' || (decide ('a' ≤ c) && decide (c ≤ 'z')) || (decide ('A' ≤ c) && decide (c ≤ 'Z'))
    || (decide ('0' ≤ c) && decide (c ≤ '9'))

/-- The character class `[^\)]` of `sExpr`. -/
def isArgsChar (c : Char) : Bool := c != ')'

/-- A match of `sExpr` anchored at the head of `s`: the two capture groups. The
expression is `\$([_a-zA-Z0-9]+)\(([^\)]*)\)`; the identifier must run up to a `(`
and the arguments up to the first `)`, so an anchored match is unique. -/
def matchHere (s : List Char) : Option (List Char × List Char) :=
  match s with
  | [] => none
  | c :: rest =>
    if c = '$' ∧ rest.takeWhile isIdentifierChar ≠ [] then
      match rest.dropWhile isIdentifierChar with
      | [] => none
      | p :: rest2 =>
        if p = '(' then
          match rest2.dropWhile isArgsChar with
          | [] => none
          | r :: _ =>
            if r = ')' then some (rest.takeWhile isIdentifierChar, rest2.takeWhile isArgsChar)
            else none
        else none
    else none

/-- One match of `sExpr` in a string: where it starts and its two capture groups. -/
structure Span where
  start : Nat
  name : List Char
  args : List Char
  deriving DecidableEq

/-- The text of a span, `$name(args)`. -/
def Span.text (m : Span) : List Char :=
  '$' :: (m.name ++ '(' :: (m.args ++ [')']))

/-- The position after the last character of a span. -/
def Span.stop (m : Span) : Nat := m.start + m.name.length + m.args.length + 3

/-- The index array of one match as `FindAllSubmatchIndex` gives it: start and end
of the whole match, of group 1 and of group 2. -/
def Span.indices (m : Span) : List Nat :=
  [m.start, m.stop, m.start + 1, m.start + 1 + m.name.length,
   m.start + m.name.length + 2, m.start + m.name.length + 2 + m.args.length]

/-- The successive non-overlapping matches of `sExpr`, leftmost first: `s` is what is
left of the string from position `pos` on, and `skip` counts the characters of `s`
that still belong to the previous match. -/
def scanFrom : Nat → Nat → List Char → List Span
  | _, _, [] => []
  | skip + 1, pos, _ :: cs => scanFrom skip (pos + 1) cs
  | 0, pos, c :: cs =>
    match matchHere (c :: cs) with
    | some (name, args) =>
      ⟨pos, name, args⟩ :: scanFrom (name.length + args.length + 2) (pos + 1) cs
    | none => scanFrom 0 (pos + 1) cs

/-- All the matches of `sExpr` in a string. -/
def spans (str : List Char) : List Span := scanFrom 0 0 str

/-- Go `rExp.FindAllSubmatchIndex([]byte(str), -1)` for `rExp` compiled from `sExpr`. -/
def FindAllSubmatchIndex (str : List Char) : List (List Nat) :=
  (spans str).map Span.indices

/-! ## Data model -/

/-- Modelled from the spec: the Time Range (`tsdb.TimeRange`, not among the sources),
exposed to the engine only as whole-second epoch integers. -/
structure TimeRange where
  fromEpoch : Int
  toEpoch : Int

/-- Go `TimeRange.GetFromAsSecondsEpoch`. -/
def TimeRange.GetFromAsSecondsEpoch (tr : TimeRange) : Int := tr.fromEpoch

/-- Go `TimeRange.GetToAsSecondsEpoch`. -/
def TimeRange.GetToAsSecondsEpoch (tr : TimeRange) : Int := tr.toEpoch

/-- A value held by the query context. -/
inductive JsonValue where
  | bool (b : Bool)
  | float64 (x : Float64)
  | string (s : List Char)
  deriving DecidableEq

/-- Modelled from the spec: the Query Context (`simplejson.Json`, not among the
sources), a mutable key/value store. -/
def Json : Type := String → Option JsonValue

/-- Modelled from the spec: `Json.Set(key, val)` writes one key of the store. -/
def Json.Set (j : Json) (key : String) (val : JsonValue) : Json :=
  fun k => if k = key then some val else j k

/-- Modelled from the spec: the query (`tsdb.Query`, not among the sources), of which
the engine uses the context `Model` only. -/
structure Query where
  Model : Json

/-- A Go result `(string, error)` together with the query after the call; an error is
its message. -/
structure Result where
  val : List Char
  err : Option (List Char)
  query : Query

/-! ## The engine -/

/-- The loop of `__wherein` over the value tokens: `params` collects the quoted values
and `hasNull` records a `NULL` sentinel. -/
def whereinLoop : List (List Char) → List (List Char) × Bool → List (List Char) × Bool
  | [], st => st
  | arg :: rest, (params, hasNull) =>
    if arg = "NULL".toList ∨ arg = "'NULL'".toList then whereinLoop rest (params, true)
    else if !strings.HasPrefix arg [squote] then
      whereinLoop rest (params ++ [squote :: (arg ++ [squote])], hasNull)
    else whereinLoop rest (params ++ [arg], hasNull)

/-- The error `fmt.Errorf("missing time column argument for macro %v", name)`. -/
def errMissingTimeColumn (name : List Char) : List Char :=
  "missing time column argument for macro ".toList ++ name

/-- The case `"__timeEpoch", "__time"` of `evaluateMacro`. -/
def evaluateMacro.time (query : Query) (name : List Char) (args : List (List Char)) :
    Option Result :=
  if args.length = 0 then some ⟨[], some (errMissingTimeColumn name), query⟩
  else do
    let a0 ← args[0]?
    some ⟨"UNIX_TIMESTAMP(".toList ++ a0 ++ ") as time_sec".toList, none, query⟩

/-- The case `"__timeFilter"` of `evaluateMacro`. -/
def evaluateMacro.timeFilter (timeRange : TimeRange) (query : Query) (name : List Char)
    (args : List (List Char)) : Option Result :=
  if args.length = 0 then some ⟨[], some (errMissingTimeColumn name), query⟩
  else do
    let a0 ← args[0]?
    some ⟨a0 ++ " >= FROM_UNIXTIME(".toList ++ fmtD timeRange.GetFromAsSecondsEpoch
      ++ ") AND ".toList ++ a0 ++ " <= FROM_UNIXTIME(".toList
      ++ fmtD timeRange.GetToAsSecondsEpoch ++ ")".toList, none, query⟩

/-- The final `fmt.Sprintf` of the case `"__timeGroup"`. -/
def evaluateMacro.timeGroupExpr (query : Query) (args : List (List Char)) (interval : Int) :
    Option Result := do
  let a0 ← args[0]?
  some ⟨"cast(cast(UNIX_TIMESTAMP(".toList ++ a0 ++ ")/(".toList
    ++ fmtF0 (Duration.Seconds interval) ++ ") as signed)*".toList
    ++ fmtF0 (Duration.Seconds interval) ++ " as signed)".toList, none, query⟩

/-- The case `"__timeGroup"` of `evaluateMacro`. -/
def evaluateMacro.timeGroup (lib : GoLib) (query : Query) (name : List Char)
    (args : List (List Char)) : Option Result :=
  if args.length < 2 then
    some ⟨[], some ("macro ".toList ++ name ++ " needs time column and interval".toList), query⟩
  else do
    let a1 ← args[1]?
    match lib.ParseDuration (strings.Trim a1 [squote, dquote]) with
    | none => some ⟨[], some ("error parsing interval ".toList ++ a1), query⟩
    | some interval =>
      if args.length = 3 then do
        let q1 : Query := ⟨query.Model.Set "fill" (.bool true)⟩
        let q2 : Query := ⟨q1.Model.Set "fillInterval" (.float64 (Duration.Seconds interval))⟩
        let a2 ← args[2]?
        if a2 = "NULL".toList then
          evaluateMacro.timeGroupExpr ⟨q2.Model.Set "fillNull" (.bool true)⟩ args interval
        else
          match lib.ParseFloat a2 with
          | none => some ⟨[], some ("error parsing fill value ".toList ++ a2), q2⟩
          | some floatVal =>
            evaluateMacro.timeGroupExpr ⟨q2.Model.Set "fillValue" (.float64 floatVal)⟩ args
              interval
      else evaluateMacro.timeGroupExpr query args interval

/-- The case `"__unixEpochFilter"` of `evaluateMacro`. -/
def evaluateMacro.unixEpochFilter (timeRange : TimeRange) (query : Query) (name : List Char)
    (args : List (List Char)) : Option Result :=
  if args.length = 0 then some ⟨[], some (errMissingTimeColumn name), query⟩
  else do
    let a0 ← args[0]?
    some ⟨a0 ++ " >= ".toList ++ fmtD timeRange.GetFromAsSecondsEpoch
      ++ " AND ".toList ++ a0 ++ " <= ".toList
      ++ fmtD timeRange.GetToAsSecondsEpoch, none, query⟩

/-- The case `"__wherein"` of `evaluateMacro`. -/
def evaluateMacro.wherein (query : Query) (name : List Char) (args : List (List Char)) :
    Option Result :=
  if args.length < 2 then
    some ⟨[], some ("macro ".toList ++ name ++ " needs column and params".toList), query⟩
  else do
    let a0 ← args[0]?
    let columnName := if strings.HasPrefix a0 [squote] then strings.Trim a0 [squote] else a0
    let a1 ← args[1]?
    if args.length = 2 ∧ (a1 = "ALL".toList ∨ a1 = "'ALL'".toList) then
      some ⟨"1 = 1".toList, none, query⟩
    else if args.length = 2 ∧ (a1 = "NULL".toList ∨ a1 = "'NULL'".toList) then
      some ⟨columnName ++ " IS NULL".toList, none, query⟩
    else do
      let values ← sliceFrom args 1
      let (params, hasNull) := whereinLoop values ([], false)
      if hasNull then
        some ⟨columnName ++ " in (".toList ++ strings.Join params ",".toList
          ++ ") or ".toList ++ a0 ++ " IS NULL".toList, none, query⟩
      else
        some ⟨columnName ++ " in (".toList ++ strings.Join params ",".toList
          ++ ")".toList, none, query⟩

/-- The method `MySqlMacroEngine.evaluateMacro`, a switch over the macro name; the
engine fields `m.TimeRange` and `m.Query` are the arguments `timeRange` and `query`. -/
def evaluateMacro (lib : GoLib) (timeRange : TimeRange) (query : Query)
    (name : List Char) (args : List (List Char)) : Option Result :=
  if name = "__timeEpoch".toList ∨ name = "__time".toList then
    evaluateMacro.time query name args
  else if name = "__timeFilter".toList then
    evaluateMacro.timeFilter timeRange query name args
  else if name = "__timeFrom".toList then
    some ⟨"FROM_UNIXTIME(".toList ++ fmtD timeRange.GetFromAsSecondsEpoch ++ ")".toList,
      none, query⟩
  else if name = "__timeTo".toList then
    some ⟨"FROM_UNIXTIME(".toList ++ fmtD timeRange.GetToAsSecondsEpoch ++ ")".toList,
      none, query⟩
  else if name = "__timeGroup".toList then
    evaluateMacro.timeGroup lib query name args
  else if name = "__unixEpochFilter".toList then
    evaluateMacro.unixEpochFilter timeRange query name args
  else if name = "__unixEpochFrom".toList then
    some ⟨fmtD timeRange.GetFromAsSecondsEpoch, none, query⟩
  else if name = "__unixEpochTo".toList then
    some ⟨fmtD timeRange.GetToAsSecondsEpoch, none, query⟩
  else if name = "__wherein".toList then
    evaluateMacro.wherein query name args
  else
    some ⟨[], some ("Unknown macro ".toList ++ name), query⟩

/-- The loop of `replaceAllStringSubmatchFunc` that cuts the capture groups out of the
string, `str[v[i]:v[i+1]]` for `i = 0, 2, ...`. -/
def buildGroups (str : List Char) : List Nat → Option (List (List Char))
  | [] => some []
  | [_] => none
  | lo :: hi :: rest => do
    let group ← slice str lo hi
    let groups ← buildGroups str rest
    some (group :: groups)

/-- The loop of `replaceAllStringSubmatchFunc` over the matches, with the local
variables `result` and `lastIndex`; `st` is the state the closure `repl` captures. -/
def replaceLoop {σ : Type} (str : List Char)
    (repl : List (List Char) → σ → Option (List Char × σ)) :
    List (List Nat) → List Char → Nat → σ → Option (List Char × σ)
  | [], result, lastIndex, st => do
    let rest ← sliceFrom str lastIndex
    some (result ++ rest, st)
  | v :: vs, result, lastIndex, st => do
    let groups ← buildGroups str v
    let v0 ← v[0]?
    let lit ← slice str lastIndex v0
    let (replacement, st1) ← repl groups st
    let v1 ← v[1]?
    replaceLoop str repl vs (result ++ (lit ++ replacement)) v1 st1

/-- The function `replaceAllStringSubmatchFunc`, for `re` compiled from `sExpr`. -/
def replaceAllStringSubmatchFunc {σ : Type} (str : List Char)
    (repl : List (List Char) → σ → Option (List Char × σ)) (st : σ) :
    Option (List Char × σ) :=
  replaceLoop str repl (FindAllSubmatchIndex str) [] 0 st

/-- The closure that `Interpolate` passes to `replaceAllStringSubmatchFunc`; it
captures the variable `macroError` and, through the engine, the query. -/
def Interpolate.repl (lib : GoLib) (timeRange : TimeRange) (groups : List (List Char))
    (st : Option (List Char) × Query) : Option (List Char × (Option (List Char) × Query)) := do
  let g2 ← groups[2]?
  let args := (strings.Split g2 ',').map (fun arg => strings.Trim arg [' '])
  let g1 ← groups[1]?
  let r ← evaluateMacro lib timeRange st.2 g1 args
  if r.err.isSome && st.1.isNone then
    some ("macro_error()".toList, (r.err, r.query))
  else
    some (r.val, (st.1, r.query))

/-- The method `MySqlMacroEngine.Interpolate`. -/
def Interpolate (lib : GoLib) (query : Query) (timeRange : TimeRange) (sql : List Char) :
    Option Result := do
  let (sql1, macroError, query1) ←
    replaceAllStringSubmatchFunc sql (Interpolate.repl lib timeRange) (none, query)
  match macroError with
  | some e => some ⟨[], some e, query1⟩
  | none => some ⟨sql1, none, query1⟩

/-! ## A library instance for concrete examples -/

/-- A decimal digit. -/
def isDigit (c : Char) : Bool := decide ('0' ≤ c) && decide (c ≤ '9')

/-- The number a string of decimal digits denotes. -/
def digitsValue (ds : List Char) : Nat :=
  ds.foldl (fun acc c => 10 * acc + (c.toNat - 48)) 0

/-- The unit table of `time.ParseDuration`, in nanoseconds. -/
def durationUnit (u : List Char) : Option Nat :=
  if u = "ns".toList then some 1
  else if u = "us".toList ∨ u = "µs".toList ∨ u = "μs".toList then some 1000
  else if u = "ms".toList then some 1000000
  else if u = "s".toList then some 1000000000
  else if u = "m".toList then some 60000000000
  else if u = "h".toList then some 3600000000000
  else none

/-- The terms `([0-9]*(\.[0-9]*)?[a-z]+)+` of a duration string, summed in
nanoseconds; a fraction of a nanosecond is dropped. -/
def durationTerms : Nat → List Char → Option Nat
  | 0, _ => none
  | fuel + 1, s =>
    let intPart := s.takeWhile isDigit
    let s1 := s.dropWhile isDigit
    let fracPart := match s1 with
      | '.' :: t => t.takeWhile isDigit
      | _ => []
    let s2 := match s1 with
      | '.' :: t => t.dropWhile isDigit
      | _ => s1
    if intPart = [] ∧ fracPart = [] then none
    else
      let u := s2.takeWhile (fun c => !(c == '.' || isDigit c))
      let s3 := s2.dropWhile (fun c => !(c == '.' || isDigit c))
      match durationUnit u with
      | none => none
      | some unit =>
        let v := digitsValue intPart * unit + digitsValue fracPart * unit / 10 ^ fracPart.length
        if s3 = [] then some v else (durationTerms fuel s3).map (fun d => v + d)

/-- The conversion to `int64` of an integer in its range; `none` is an overflow. -/
def toInt64 (r : Int) : Option Int :=
  if -2 ^ 63 ≤ r ∧ r < 2 ^ 63 then some r else none

/-- A parser of the duration strings of Go, `[-+]?([0-9]*(\.[0-9]*)?[a-z]+)+` and `0`,
with the range of an `int64`; it stands for `time.ParseDuration` in the examples. -/
def refParseDuration (s : List Char) : Option Int :=
  let neg := s.head? = some '-'
  let s1 := match s with
    | '-' :: t => t
    | '+' :: t => t
    | _ => s
  if s1 = "0".toList then toInt64 0
  else (durationTerms s1.length s1).bind (fun d => toInt64 (if neg then -(d : Int) else (d : Int)))

/-- A parser of the plain decimal literals `[-+]?[0-9]+(\.[0-9]*)?`; it stands for
`strconv.ParseFloat` in the examples, none of which uses the wider syntax of Go
(exponents, hexadecimal literals, infinities, NaN). -/
def refParseFloat (s : List Char) : Option Float64 :=
  let neg := s.head? = some '-'
  let s1 := match s with
    | '-' :: t => t
    | '+' :: t => t
    | _ => s
  let intPart := s1.takeWhile isDigit
  let fracPart := match s1.dropWhile isDigit with
    | '.' :: t => t
    | _ => []
  let wellFormed := match s1.dropWhile isDigit with
    | '.' :: t => t.all isDigit
    | [] => true
    | _ => false
  if intPart = [] ∨ !wellFormed then none
  else
    let q : ℚ := (digitsValue intPart : ℚ) + (digitsValue fracPart : ℚ) / 10 ^ fracPart.length
    if (2 : ℚ) ^ 1024 ≤ round64 q then none
    else if q = 0 ∧ neg then some .negZero
    else some (.finite (round64 (if neg then -q else q)))

/-- The library instance of the examples. -/
def refLib : GoLib where
  ParseDuration := refParseDuration
  ParseFloat := refParseFloat
  duration_int64 := by
    have key : ∀ r d : Int, toInt64 r = some d → -2 ^ 63 ≤ d ∧ d < 2 ^ 63 := by
      intro r d h
      unfold toInt64 at h
      split at h
      · cases h; assumption
      · cases h
    intro s d h
    unfold refParseDuration at h
    simp only at h
    split at h
    · exact key _ _ h
    · obtain ⟨n, -, hn⟩ := Option.bind_eq_some.mp h
      exact key _ _ hn

/-! ## Notions of the specification -/

/-- The Argument Tokenizer: the raw argument text split on `,`, each piece trimmed of
its leading and trailing spaces, as the closure of `Interpolate` computes it. -/
def tokens (raw : List Char) : List (List Char) :=
  (strings.Split raw ',').map (fun arg => strings.Trim arg [' '])

/-- The matched invocations of a template, in scan order: macro name and argument
tokens. -/
def invocations (sql : List Char) : List (List Char × List (List Char)) :=
  (spans sql).map (fun m => (m.name, tokens m.args))

/-- The template contains a match of the macro grammar `$IDENT(ARGS)`. -/
def HasMacroSyntax (sql : List Char) : Prop :=
  ∃ pre name args post, sql = pre ++ '$' :: (name ++ '(' :: (args ++ ')' :: post)) ∧
    name ≠ [] ∧ (∀ c ∈ name, isIdentifierChar c = true) ∧ ')' ∉ args

/-- The query with an empty context. -/
def emptyQuery : Query := ⟨fun _ => none⟩

/-- The result of `evaluateMacro`, which never panics (`evaluateMacro_eq_some`). -/
def evalD (lib : GoLib) (timeRange : TimeRange) (query : Query) (name : List Char)
    (args : List (List Char)) : Result :=
  (evaluateMacro lib timeRange query name args).getD ⟨[], none, query⟩

/-- One call of the closure of `Interpolate` at a span, as a total function. -/
def stepD (lib : GoLib) (timeRange : TimeRange) (st : Option (List Char) × Query) (m : Span) :
    List Char × (Option (List Char) × Query) :=
  if (evalD lib timeRange st.2 m.name (tokens m.args)).err.isSome && st.1.isNone then
    ("macro_error()".toList,
      ((evalD lib timeRange st.2 m.name (tokens m.args)).err,
       (evalD lib timeRange st.2 m.name (tokens m.args)).query))
  else
    ((evalD lib timeRange st.2 m.name (tokens m.args)).val,
      (st.1, (evalD lib timeRange st.2 m.name (tokens m.args)).query))

/-- A string laid out as literal texts and spans: `Layout pos s segs rest` says that
`s`, which starts at position `pos`, is the texts and spans of `segs` in turn, each
span at its own start position, followed by `rest`. -/
inductive Layout : Nat → List Char → List (List Char × Span) → List Char → Prop
  | nil (pos : Nat) (rest : List Char) : Layout pos rest [] rest
  | cons (pos : Nat) (lit : List Char) (m : Span) (s : List Char)
      (segs : List (List Char × Span)) (rest : List Char) :
      m.start = pos + lit.length → Layout m.stop s segs rest →
      Layout pos (lit ++ (m.text ++ s)) ((lit, m) :: segs) rest

/-- The splicing of `replaceAllStringSubmatchFunc` over a layout, with `step` for the
closure: the output from the first text on, and the final state. -/
def spliceRun {σ : Type} (step : σ → Span → List Char × σ) :
    List (List Char × Span) → List Char → σ → List Char × σ
  | [], rest, st => (rest, st)
  | (lit, m) :: segs, rest, st =>
    (lit ++ ((step st m).1 ++ (spliceRun step segs rest (step st m).2).1),
      (spliceRun step segs rest (step st m).2).2)

/-- The ten macro names that the switch of `evaluateMacro` recognises. -/
def recognised : List (List Char) :=
  ["__timeEpoch".toList, "__time".toList, "__timeFilter".toList, "__timeFrom".toList,
   "__timeTo".toList, "__timeGroup".toList, "__unixEpochFilter".toList,
   "__unixEpochFrom".toList, "__unixEpochTo".toList, "__wherein".toList]

/-- A `NULL` sentinel among the value tokens of `__wherein`. -/
def isNullToken (v : List Char) : Bool :=
  decide (v = "NULL".toList ∨ v = "'NULL'".toList)

/-- The value that `__wherein` emits for a concrete value token: the token itself when
it begins with a single quote, the token between two single quotes otherwise. -/
def whereinQuote (v : List Char) : List Char :=
  if strings.HasPrefix v [squote] then v else squote :: (v ++ [squote])

/-- The column name `columnName` that `__wherein` derives from its first token. -/
def whereinColumn (tok : List Char) : List Char :=
  if strings.HasPrefix tok [squote] then strings.Trim tok [squote] else tok

/-- A query whose context holds one key beforehand, `format`. -/
def sampleQuery : Query := ⟨emptyQuery.Model.Set "format" (.string "time_series".toList)⟩

/-- The outcome of `Interpolate` from the spliced text and the recorded error. -/
def finish (out : List Char × (Option (List Char) × Query)) : Result :=
  match out.2.1 with
  | some e => ⟨[], some e, out.2.2⟩
  | none => ⟨out.1, none, out.2.2⟩

/-- The invocation evaluates, whatever the context, with the error `e`; `none` is an
evaluation without error. -/
def EvalError (lib : GoLib) (timeRange : TimeRange) (inv : List Char × List (List Char))
    (e : Option (List Char)) : Prop :=
  ∀ q, ∃ r, evaluateMacro lib timeRange q inv.1 inv.2 = some r ∧ r.err = e

/-- The splicing of the Assembler: `out` is `sql` with every matched span replaced by
its fragment. `sql` is the texts and spans of `segs` in turn, then `rest`; the spans of
`segs` are the matches of the scanner, each with the value its evaluation returns,
whatever the context; `out` is the same texts with the fragments in place of the
spans, then `rest`. -/
def Spliced (lib : GoLib) (timeRange : TimeRange) (sql out : List Char) : Prop :=
  ∃ (segs : List (List Char × Span × List Char)) (rest : List Char),
    sql = (segs.map (fun s => s.1 ++ s.2.1.text)).flatten ++ rest ∧
    segs.map (fun s => s.2.1) = spans sql ∧
    (∀ s ∈ segs, ∀ q, ∃ r,
      evaluateMacro lib timeRange q s.2.1.name (tokens s.2.1.args) = some r ∧ r.val = s.2.2) ∧
    out = (segs.map (fun s => s.1 ++ s.2.2)).flatten ++ rest

/-! # Verification -/

/-! ## The scanner -/

theorem scanFrom_nil (skip pos : Nat) : scanFrom skip pos [] = [] := by
  cases skip <;> rfl

theorem scanFrom_skip (skip pos : Nat) (s : List Char) :
    scanFrom skip pos s = scanFrom 0 (pos + skip) (s.drop skip) := by
  induction skip generalizing pos s with
  | zero => simp
  | succ k ih =>
    cases s with
    | nil => simp [scanFrom_nil]
    | cons c cs =>
      rw [scanFrom, ih]
      simp [Nat.add_assoc, Nat.add_comm 1 k]

theorem matchHere_eq_some {s name args : List Char} (h : matchHere s = some (name, args)) :
    ∃ rest, s = '$' :: (name ++ '(' :: (args ++ ')' :: rest)) ∧ name ≠ [] ∧
      (∀ c ∈ name, isIdentifierChar c = true) ∧ ')' ∉ args := by
  unfold matchHere at h
  split at h
  · cases h
  · rename_i c rest
    split_ifs at h with hc
    split at h
    · cases h
    · rename_i p rest2 hp
      split_ifs at h with hp2
      split at h
      · cases h
      · rename_i r rest3 hr
        split_ifs at h with hr2
        simp only [Option.some.injEq, Prod.mk.injEq] at h
        obtain ⟨hn, ha⟩ := h
        refine ⟨rest3, ?_, ?_, ?_, ?_⟩
        · have h1 := List.takeWhile_append_dropWhile isIdentifierChar rest
          have h2 := List.takeWhile_append_dropWhile isArgsChar rest2
          rw [hp, hn] at h1
          rw [hr, ha] at h2
          rw [hc.1, ← h1, hp2, ← hr2, h2]
        · rw [← hn]; exact hc.2
        · intro c hc'
          rw [← hn] at hc'
          exact List.mem_takeWhile_imp hc'
        · intro hmem
          rw [← ha] at hmem
          have := List.mem_takeWhile_imp hmem
          simp [isArgsChar] at this

theorem matchHere_complete {name args : List Char} (rest : List Char) (hn : name ≠ [])
    (hid : ∀ c ∈ name, isIdentifierChar c = true) (ha : ')' ∉ args) :
    matchHere ('$' :: (name ++ '(' :: (args ++ ')' :: rest))) = some (name, args) := by
  have hargs : ∀ c ∈ args, isArgsChar c = true := by
    intro c hc
    have : c ≠ ')' := fun h => ha (h ▸ hc)
    simpa [isArgsChar] using this
  have t1 : (name ++ '(' :: (args ++ ')' :: rest)).takeWhile isIdentifierChar = name := by
    rw [List.takeWhile_append_of_pos hid, List.takeWhile_cons_of_neg (by decide)]
    simp
  have d1 : (name ++ '(' :: (args ++ ')' :: rest)).dropWhile isIdentifierChar
      = '(' :: (args ++ ')' :: rest) := by
    rw [List.dropWhile_append_of_pos hid, List.dropWhile_cons_of_neg (by decide)]
  have t2 : (args ++ ')' :: rest).takeWhile isArgsChar = args := by
    rw [List.takeWhile_append_of_pos hargs, List.takeWhile_cons_of_neg (by decide)]
    simp
  have d2 : (args ++ ')' :: rest).dropWhile isArgsChar = ')' :: rest := by
    rw [List.dropWhile_append_of_pos hargs, List.dropWhile_cons_of_neg (by decide)]
  simp only [matchHere, t1, d1, t2, d2]
  simp [hn]

theorem scanFrom_cons_none {c : Char} {cs : List Char} (pos : Nat)
    (h : matchHere (c :: cs) = none) : scanFrom 0 pos (c :: cs) = scanFrom 0 (pos + 1) cs := by
  simp [scanFrom, h]

theorem scanFrom_cons_some {c : Char} {cs name args : List Char} (pos : Nat)
    (h : matchHere (c :: cs) = some (name, args)) :
    scanFrom 0 pos (c :: cs)
      = ⟨pos, name, args⟩ :: scanFrom 0 (pos + name.length + args.length + 3)
          (cs.drop (name.length + args.length + 2)) := by
  simp only [scanFrom, h]
  rw [scanFrom_skip]
  congr 2
  omega

theorem Layout.prepend {pos : Nat} {c : Char} {cs : List Char}
    {segs : List (List Char × Span)} {rest : List Char} (h : Layout (pos + 1) cs segs rest) :
    ∃ segs1 rest1, Layout pos (c :: cs) segs1 rest1 ∧
      segs1.map Prod.snd = segs.map Prod.snd := by
  cases h with
  | nil => exact ⟨[], c :: cs, Layout.nil _ _, rfl⟩
  | cons _ lit m s segs rest hstart hl =>
    refine ⟨(c :: lit, m) :: segs, rest, ?_, rfl⟩
    have := Layout.cons pos (c :: lit) m s segs rest (by simp [hstart]; omega) hl
    simpa using this

theorem scan_layout (n : Nat) : ∀ (s : List Char) (pos : Nat), s.length ≤ n →
    ∃ segs rest, Layout pos s segs rest ∧ segs.map Prod.snd = scanFrom 0 pos s := by
  induction n with
  | zero =>
    intro s pos hs
    have : s = [] := List.eq_nil_of_length_eq_zero (Nat.le_zero.mp hs)
    subst this
    exact ⟨[], [], Layout.nil _ _, rfl⟩
  | succ n ih =>
    intro s pos hs
    cases s with
    | nil => exact ⟨[], [], Layout.nil _ _, rfl⟩
    | cons c cs =>
      cases hm : matchHere (c :: cs) with
      | none =>
        obtain ⟨segs, rest, hl, hmap⟩ := ih cs (pos + 1) (by simpa using hs)
        obtain ⟨segs1, rest1, hl1, hmap1⟩ := hl.prepend (c := c)
        exact ⟨segs1, rest1, hl1, by rw [hmap1, hmap, scanFrom_cons_none pos hm]⟩
      | some na =>
        obtain ⟨name, args⟩ := na
        obtain ⟨tl, htl, -, -, -⟩ := matchHere_eq_some hm
        have hcs : cs = name ++ '(' :: (args ++ ')' :: tl) := by
          simp only [List.cons.injEq] at htl
          exact htl.2
        have hdrop : cs.drop (name.length + args.length + 2) = tl := by
          rw [hcs]
          have : name ++ '(' :: (args ++ ')' :: tl) = (name ++ '(' :: (args ++ [')'])) ++ tl := by
            simp
          rw [this]
          apply List.drop_left'
          simp
          omega
        obtain ⟨segs, rest, hl, hmap⟩ :=
          ih tl (pos + name.length + args.length + 3) (by rw [hcs] at hs; simp at hs; omega)
        refine ⟨([], ⟨pos, name, args⟩) :: segs, rest, ?_, ?_⟩
        · have := Layout.cons pos [] ⟨pos, name, args⟩ tl segs rest (by simp) hl
          have e : c :: cs = [] ++ (Span.text ⟨pos, name, args⟩ ++ tl) := by
            rw [htl]; simp [Span.text]
          rw [e]
          exact this
        · rw [scanFrom_cons_some pos hm, hdrop]
          simp [hmap]

theorem HasMacroSyntax.cons {c : Char} {cs : List Char} (h : HasMacroSyntax cs) :
    HasMacroSyntax (c :: cs) := by
  obtain ⟨pre, name, args, post, hs, hn, hid, ha⟩ := h
  exact ⟨c :: pre, name, args, post, by simp [hs], hn, hid, ha⟩

theorem scanFrom_eq_nil {s : List Char} (h : ¬ HasMacroSyntax s) (pos : Nat) :
    scanFrom 0 pos s = [] := by
  induction s generalizing pos with
  | nil => rfl
  | cons c cs ih =>
    cases hm : matchHere (c :: cs) with
    | none =>
      rw [scanFrom_cons_none pos hm]
      exact ih (fun hcs => h hcs.cons) _
    | some na =>
      obtain ⟨name, args⟩ := na
      obtain ⟨tl, htl, hn, hid, ha⟩ := matchHere_eq_some hm
      exact absurd ⟨[], name, args, tl, htl, hn, hid, ha⟩ h

theorem scanFrom_ne_nil {s : List Char} (h : HasMacroSyntax s) (pos : Nat) :
    scanFrom 0 pos s ≠ [] := by
  obtain ⟨pre, name, args, post, hs, hn, hid, ha⟩ := h
  subst hs
  induction pre generalizing pos with
  | nil =>
    rw [List.nil_append, scanFrom_cons_some pos (matchHere_complete post hn hid ha)]
    simp
  | cons c pre ih =>
    cases hm : matchHere (c :: (pre ++ '$' :: (name ++ '(' :: (args ++ ')' :: post)))) with
    | none =>
      rw [List.cons_append, scanFrom_cons_none pos hm]
      exact ih _
    | some na =>
      rw [List.cons_append, scanFrom_cons_some pos hm]
      simp

theorem hasMacroSyntax_iff (sql : List Char) : HasMacroSyntax sql ↔ spans sql ≠ [] :=
  ⟨fun h => scanFrom_ne_nil h 0, fun h => by
    by_contra hn
    exact h (scanFrom_eq_nil hn 0)⟩

theorem matchHere_of_ne {c : Char} (cs : List Char) (h : c ≠ '$') :
    matchHere (c :: cs) = none := by
  simp [matchHere, h]

theorem scanFrom_append_literal {a : List Char} (h : '$' ∉ a) (s : List Char) (pos : Nat) :
    scanFrom 0 pos (a ++ s) = scanFrom 0 (pos + a.length) s := by
  induction a generalizing pos with
  | nil => simp
  | cons c a ih =>
    have hc : c ≠ '$' := fun e => h (e ▸ List.mem_cons_self _ _)
    rw [List.cons_append, scanFrom_cons_none pos (matchHere_of_ne _ hc),
      ih (fun hm => h (List.mem_cons_of_mem _ hm))]
    simp [Nat.add_assoc, Nat.add_comm 1]

theorem scanFrom_literal {b : List Char} (h : '$' ∉ b) (pos : Nat) : scanFrom 0 pos b = [] := by
  have := scanFrom_append_literal h [] pos
  simpa [scanFrom_nil] using this

theorem Layout.nil_inv {pos : Nat} {s rest : List Char} (h : Layout pos s [] rest) :
    s = rest := by
  cases h
  rfl

theorem Layout.cons_inv {pos : Nat} {s lit : List Char} {m : Span}
    {segs : List (List Char × Span)} {rest : List Char}
    (h : Layout pos s ((lit, m) :: segs) rest) :
    ∃ s1, s = lit ++ (m.text ++ s1) ∧ m.start = pos + lit.length ∧
      Layout m.stop s1 segs rest := by
  cases h with
  | cons _ _ _ s1 _ _ hstart hl => exact ⟨s1, rfl, hstart, hl⟩

theorem Layout.text_eq {pos : Nat} {s : List Char} {segs : List (List Char × Span)}
    {rest : List Char} (h : Layout pos s segs rest) :
    s = (segs.map (fun seg => seg.1 ++ seg.2.text)).flatten ++ rest := by
  induction h with
  | nil => simp
  | cons pos lit m s segs rest _ _ ih =>
    simp only [List.map_cons, List.flatten_cons, List.append_assoc]
    rw [← ih]

/-! ## The splicer -/

theorem slice_of_append {α : Type} {str a b c : List α} {lo hi : Nat}
    (hstr : str = a ++ (b ++ c)) (hlo : lo = a.length) (hhi : hi = lo + b.length) :
    slice str lo hi = some b := by
  subst hstr hlo hhi
  unfold slice
  rw [if_pos (by simp)]
  simp

theorem sliceFrom_of_append {α : Type} {str a b : List α} {lo : Nat}
    (hstr : str = a ++ b) (hlo : lo = a.length) : sliceFrom str lo = some b := by
  subst hstr hlo
  unfold sliceFrom
  rw [if_pos (by simp)]
  simp

theorem buildGroups_indices {str : List Char} (pre s : List Char) {m : Span}
    (hstr : str = pre ++ (m.text ++ s)) (hstart : m.start = pre.length) :
    buildGroups str m.indices = some [m.text, m.name, m.args] := by
  have h0 : slice str m.start m.stop = some m.text :=
    slice_of_append hstr hstart (by simp [Span.stop, Span.text]; omega)
  have h1 : slice str (m.start + 1) (m.start + 1 + m.name.length) = some m.name :=
    slice_of_append (a := pre ++ ['$']) (c := '(' :: (m.args ++ ')' :: s))
      (by rw [hstr]; simp [Span.text]) (by simp [hstart]) rfl
  have h2 : slice str (m.start + m.name.length + 2)
      (m.start + m.name.length + 2 + m.args.length) = some m.args :=
    slice_of_append (a := pre ++ '$' :: (m.name ++ ['('])) (c := ')' :: s)
      (by rw [hstr]; simp [Span.text]) (by simp [hstart]; omega) rfl
  simp [Span.indices, buildGroups, h0, h1, h2]

theorem replaceLoop_layout {σ : Type} (step : σ → Span → List Char × σ)
    (repl : List (List Char) → σ → Option (List Char × σ))
    (hrepl : ∀ m st, repl [m.text, m.name, m.args] st = some (step st m))
    {pos : Nat} {s : List Char} {segs : List (List Char × Span)} {rest : List Char}
    (h : Layout pos s segs rest) :
    ∀ (pre result : List Char) (st : σ), pre.length = pos →
      replaceLoop (pre ++ s) repl (segs.map (fun x => x.2.indices)) result pos st
        = some (result ++ (spliceRun step segs rest st).1, (spliceRun step segs rest st).2) := by
  induction h with
  | nil pos rest =>
    intro pre result st hpre
    simp [replaceLoop, spliceRun, sliceFrom_of_append rfl hpre.symm]
  | cons pos lit m s segs rest hstart _ ih =>
    intro pre result st hpre
    have hg : buildGroups (pre ++ (lit ++ (m.text ++ s))) m.indices
        = some [m.text, m.name, m.args] :=
      buildGroups_indices (pre ++ lit) s (by simp) (by simp [hstart, hpre])
    have hl : slice (pre ++ (lit ++ (m.text ++ s))) pos m.start = some lit :=
      slice_of_append rfl hpre.symm hstart
    have hrec := ih (pre ++ (lit ++ m.text)) (result ++ (lit ++ (step st m).1)) (step st m).2
      (by simp [Span.stop, Span.text, hstart, hpre]; omega)
    have e : pre ++ (lit ++ m.text) ++ s = pre ++ (lit ++ (m.text ++ s)) := by simp
    rw [e] at hrec
    have hv0 : m.indices[0]? = some m.start := rfl
    have hv1 : m.indices[1]? = some m.stop := rfl
    simp only [List.map_cons, replaceLoop, hg, hv0, hv1, hl, hrepl, Option.bind_eq_bind,
      Option.some_bind, hrec]
    simp [spliceRun]

/-! ## Durations of whole seconds -/

theorem roundHalfEven_intCast (z : ℤ) : roundHalfEven (z : ℚ) = z := by
  unfold roundHalfEven
  rw [Int.floor_intCast]
  simp

theorem round64_intCast (n : ℤ) (h : |n| < 2 ^ 53) : round64 (n : ℚ) = n := by
  unfold round64
  split_ifs with h0
  · exact h0.symm
  · have hpos : (0 : ℚ) < |(n : ℚ)| := abs_pos.mpr h0
    have hle : ((2 : ℕ) : ℚ) ^ Int.log 2 |(n : ℚ)| ≤ |(n : ℚ)| := Int.zpow_log_le_self (by norm_num) hpos
    have hlt : |(n : ℚ)| < (2 : ℚ) ^ (53 : ℤ) := by
      have : ((|n| : ℤ) : ℚ) < ((2 ^ 53 : ℤ) : ℚ) := by exact_mod_cast h
      rw [Int.cast_abs] at this
      norm_num at this ⊢
      exact this
    have he : Int.log 2 |(n : ℚ)| < 53 := by
      have h2 : ((2 : ℕ) : ℚ) ^ Int.log 2 |(n : ℚ)| < ((2 : ℕ) : ℚ) ^ (53 : ℤ) := by
        refine lt_of_le_of_lt hle ?_
        simpa using hlt
      exact (zpow_lt_zpow_iff_right₀ (by norm_num)).mp h2
    obtain ⟨k, hk⟩ : ∃ k : ℕ, Int.log 2 |(n : ℚ)| - 52 = -(k : ℤ) :=
      ⟨(52 - Int.log 2 |(n : ℚ)|).toNat, by rw [Int.toNat_of_nonneg (by omega)]; ring⟩
    rw [hk, zpow_neg, zpow_natCast]
    have hq : (n : ℚ) / ((2 : ℚ) ^ k)⁻¹ = ((n * 2 ^ k : ℤ) : ℚ) := by
      push_cast
      field_simp
    rw [hq, roundHalfEven_intCast]
    push_cast
    field_simp

theorem Seconds_whole (n : ℤ) (h : -2 ^ 63 ≤ n * 1000000000 ∧ n * 1000000000 < 2 ^ 63) :
    Duration.Seconds (n * 1000000000) = .finite n := by
  have hn : |n| < 2 ^ 53 := by
    rw [abs_lt]
    constructor <;> omega
  unfold Duration.Seconds
  rw [Int.mul_tdiv_cancel _ (by norm_num), Int.mul_tmod_left]
  have h0 : round64 ((0 : ℤ) : ℚ) = 0 := by simp [round64]
  rw [h0, zero_div]
  have h0' : round64 (0 : ℚ) = 0 := by simp [round64]
  rw [h0', add_zero, round64_intCast n hn, round64_intCast n hn]

theorem fmtF0_intCast (n : ℤ) : fmtF0 (.finite (n : ℚ)) = fmtD n := by
  unfold fmtD
  simp only [fmtF0]
  have e : (-(n : ℚ)) = ((-n : ℤ) : ℚ) := by push_cast; rfl
  by_cases hn : n < 0
  · have hq : (n : ℚ) < 0 := by exact_mod_cast hn
    rw [if_pos hq, if_pos hn, e, roundHalfEven_intCast]
    congr 2
    omega
  · have hq : ¬ (n : ℚ) < 0 := by exact_mod_cast hn
    rw [if_neg hq, if_neg hn, roundHalfEven_intCast]
    congr 1
    omega

/-! ## Strings -/

theorem rdropWhile_append_rtakeWhile {α : Type} (p : α → Bool) (l : List α) :
    l.rdropWhile p ++ l.rtakeWhile p = l := by
  have h := List.takeWhile_append_dropWhile p l.reverse
  have h2 := congrArg List.reverse h
  rw [List.reverse_append, List.reverse_reverse] at h2
  exact h2

theorem Trim_spec (s cutset : List Char) :
    ∃ pre suf, s = pre ++ (strings.Trim s cutset ++ suf) ∧
      (∀ c ∈ pre, c ∈ cutset) ∧ (∀ c ∈ suf, c ∈ cutset) ∧
      (∀ c, (strings.Trim s cutset).head? = some c → c ∉ cutset) ∧
      (∀ c, (strings.Trim s cutset).getLast? = some c → c ∉ cutset) := by
  refine ⟨s.takeWhile (fun c => cutset.contains c),
    (s.dropWhile (fun c => cutset.contains c)).rtakeWhile (fun c => cutset.contains c),
    ?_, ?_, ?_, ?_, ?_⟩
  · rw [strings.Trim, rdropWhile_append_rtakeWhile, List.takeWhile_append_dropWhile]
  · intro c hc
    simpa using List.mem_takeWhile_imp hc
  · intro c hc
    simpa using List.mem_rtakeWhile_imp hc
  · intro c hc
    have hpre : strings.Trim s cutset <+: s.dropWhile (fun c => cutset.contains c) :=
      List.rdropWhile_prefix _ _
    obtain ⟨t, ht⟩ := hpre
    have hhead : (s.dropWhile (fun c => cutset.contains c)).head? = some c := by
      rw [← ht]
      cases hT : strings.Trim s cutset with
      | nil => rw [hT] at hc; cases hc
      | cons x xs => rw [hT] at hc; simpa using hc
    have := List.head?_dropWhile_not (fun c => cutset.contains c) s
    rw [hhead] at this
    simpa using this
  · intro c hc
    have hne : strings.Trim s cutset ≠ [] := by
      intro h
      rw [h] at hc
      cases hc
    have hlast := List.rdropWhile_last_not (fun c => cutset.contains c)
      (s.dropWhile (fun c => cutset.contains c)) hne
    rw [List.getLast?_eq_getLast _ hne] at hc
    cases hc
    simpa [strings.Trim] using hlast

theorem HasPrefix_squote (v : List Char) :
    strings.HasPrefix v [squote] = true ↔ v.head? = some squote := by
  cases v with
  | nil => simp [strings.HasPrefix, List.isPrefixOf]
  | cons x xs =>
    simp only [strings.HasPrefix, List.isPrefixOf, Bool.and_true, List.head?_cons,
      Option.some.injEq, beq_iff_eq]
    exact eq_comm

/-! ## The macro evaluator -/

theorem time_eq (q : Query) (name a0 : List Char) (rest : List (List Char)) :
    evaluateMacro.time q name (a0 :: rest)
      = some ⟨"UNIX_TIMESTAMP(".toList ++ a0 ++ ") as time_sec".toList, none, q⟩ := by
  simp [evaluateMacro.time]

theorem timeFilter_eq (tr : TimeRange) (q : Query) (name a0 : List Char)
    (rest : List (List Char)) :
    evaluateMacro.timeFilter tr q name (a0 :: rest)
      = some ⟨a0 ++ " >= FROM_UNIXTIME(".toList ++ fmtD tr.fromEpoch
          ++ ") AND ".toList ++ a0 ++ " <= FROM_UNIXTIME(".toList
          ++ fmtD tr.toEpoch ++ ")".toList, none, q⟩ := by
  simp [evaluateMacro.timeFilter, TimeRange.GetFromAsSecondsEpoch,
    TimeRange.GetToAsSecondsEpoch]

theorem unixEpochFilter_eq (tr : TimeRange) (q : Query) (name a0 : List Char)
    (rest : List (List Char)) :
    evaluateMacro.unixEpochFilter tr q name (a0 :: rest)
      = some ⟨a0 ++ " >= ".toList ++ fmtD tr.fromEpoch ++ " AND ".toList ++ a0
          ++ " <= ".toList ++ fmtD tr.toEpoch, none, q⟩ := by
  simp [evaluateMacro.unixEpochFilter, TimeRange.GetFromAsSecondsEpoch,
    TimeRange.GetToAsSecondsEpoch]

theorem timeGroupExpr_eq (q : Query) (a0 : List Char) (rest : List (List Char)) (d : Int) :
    evaluateMacro.timeGroupExpr q (a0 :: rest) d
      = some ⟨"cast(cast(UNIX_TIMESTAMP(".toList ++ a0 ++ ")/(".toList
          ++ fmtF0 (Duration.Seconds d) ++ ") as signed)*".toList
          ++ fmtF0 (Duration.Seconds d) ++ " as signed)".toList, none, q⟩ := by
  simp [evaluateMacro.timeGroupExpr]

theorem timeGroup_short (lib : GoLib) (q : Query) (name : List Char)
    (args : List (List Char)) (h : args.length < 2) :
    evaluateMacro.timeGroup lib q name args
      = some ⟨[], some ("macro ".toList ++ name ++ " needs time column and interval".toList),
          q⟩ := by
  simp [evaluateMacro.timeGroup, h]

theorem timeGroup_bad_interval (lib : GoLib) (q : Query) (name a0 a1 : List Char)
    (rest : List (List Char)) (h : lib.ParseDuration (strings.Trim a1 [squote, dquote]) = none) :
    evaluateMacro.timeGroup lib q name (a0 :: a1 :: rest)
      = some ⟨[], some ("error parsing interval ".toList ++ a1), q⟩ := by
  simp [evaluateMacro.timeGroup, h]

theorem timeGroup_plain (lib : GoLib) (q : Query) (name a0 a1 : List Char)
    (rest : List (List Char)) (d : Int)
    (h : lib.ParseDuration (strings.Trim a1 [squote, dquote]) = some d)
    (hlen : rest.length ≠ 1) :
    evaluateMacro.timeGroup lib q name (a0 :: a1 :: rest)
      = evaluateMacro.timeGroupExpr q (a0 :: a1 :: rest) d := by
  simp [evaluateMacro.timeGroup, h, hlen]

theorem timeGroup_null (lib : GoLib) (q : Query) (name a0 a1 : List Char) (d : Int)
    (h : lib.ParseDuration (strings.Trim a1 [squote, dquote]) = some d) :
    evaluateMacro.timeGroup lib q name [a0, a1, "NULL".toList]
      = evaluateMacro.timeGroupExpr
          ⟨((q.Model.Set "fill" (.bool true)).Set "fillInterval"
            (.float64 (Duration.Seconds d))).Set "fillNull" (.bool true)⟩
          [a0, a1, "NULL".toList] d := by
  simp [evaluateMacro.timeGroup, h]

theorem timeGroup_bad_fill (lib : GoLib) (q : Query) (name a0 a1 a2 : List Char) (d : Int)
    (h : lib.ParseDuration (strings.Trim a1 [squote, dquote]) = some d)
    (h2 : a2 ≠ "NULL".toList) (hf : lib.ParseFloat a2 = none) :
    evaluateMacro.timeGroup lib q name [a0, a1, a2]
      = some ⟨[], some ("error parsing fill value ".toList ++ a2),
          ⟨(q.Model.Set "fill" (.bool true)).Set "fillInterval"
            (.float64 (Duration.Seconds d))⟩⟩ := by
  have h2' : ¬ a2 = ['N', 'U', 'L', 'L'] := h2
  simp [evaluateMacro.timeGroup, h, h2', hf]

theorem timeGroup_fill (lib : GoLib) (q : Query) (name a0 a1 a2 : List Char) (d : Int)
    (x : Float64) (h : lib.ParseDuration (strings.Trim a1 [squote, dquote]) = some d)
    (h2 : a2 ≠ "NULL".toList) (hf : lib.ParseFloat a2 = some x) :
    evaluateMacro.timeGroup lib q name [a0, a1, a2]
      = evaluateMacro.timeGroupExpr
          ⟨((q.Model.Set "fill" (.bool true)).Set "fillInterval"
            (.float64 (Duration.Seconds d))).Set "fillValue" (.float64 x)⟩
          [a0, a1, a2] d := by
  have h2' : ¬ a2 = ['N', 'U', 'L', 'L'] := h2
  simp [evaluateMacro.timeGroup, h, h2', hf]

theorem wherein_short (q : Query) (name : List Char) (args : List (List Char))
    (h : args.length < 2) :
    evaluateMacro.wherein q name args
      = some ⟨[], some ("macro ".toList ++ name ++ " needs column and params".toList), q⟩ := by
  simp [evaluateMacro.wherein, h]

theorem wherein_eq (q : Query) (name a0 a1 : List Char) (rest : List (List Char)) :
    evaluateMacro.wherein q name (a0 :: a1 :: rest)
      = some ⟨
          if rest = [] ∧ (a1 = "ALL".toList ∨ a1 = "'ALL'".toList) then "1 = 1".toList
          else if rest = [] ∧ (a1 = "NULL".toList ∨ a1 = "'NULL'".toList) then
            (if strings.HasPrefix a0 [squote] then strings.Trim a0 [squote] else a0)
              ++ " IS NULL".toList
          else if (whereinLoop (a1 :: rest) ([], false)).2 then
            (if strings.HasPrefix a0 [squote] then strings.Trim a0 [squote] else a0)
              ++ " in (".toList
              ++ strings.Join (whereinLoop (a1 :: rest) ([], false)).1 ",".toList
              ++ ") or ".toList ++ a0 ++ " IS NULL".toList
          else
            (if strings.HasPrefix a0 [squote] then strings.Trim a0 [squote] else a0)
              ++ " in (".toList
              ++ strings.Join (whereinLoop (a1 :: rest) ([], false)).1 ",".toList
              ++ ")".toList,
          none, q⟩ := by
  unfold evaluateMacro.wherein
  simp only [List.length_cons, sliceFrom]
  rw [if_neg (by omega)]
  simp only [List.getElem?_cons_zero, List.getElem?_cons_succ, Option.bind_eq_bind,
    Option.some_bind]
  have hlen : (rest.length + 1 + 1 = 2) = (rest = []) := by
    simp [List.length_eq_zero]
  simp only [hlen]
  split_ifs <;> simp_all

theorem Json.Set_frame (j : Json) (key : String) (val : JsonValue) (k : String)
    (h : k ≠ key) : j.Set key val k = j k := by
  simp [Json.Set, h]

theorem shape_of_pure {f : Query → Option Result} {v : List Char} {e : Option (List Char)}
    (P : Prop) (h : ∀ q, f q = some ⟨v, e, q⟩) :
    ∃ (v : List Char) (e : Option (List Char)) (w : Json → Json),
      (∀ q, f q = some ⟨v, e, ⟨w q.Model⟩⟩) ∧
      (∀ j k, k ≠ "fill" → k ≠ "fillInterval" → k ≠ "fillNull" → k ≠ "fillValue" →
        w j k = j k) ∧
      (P → ∀ j, w j = j) :=
  ⟨v, e, id, h, fun _ _ _ _ _ _ => rfl, fun _ _ => rfl⟩

theorem shape_of_write {f : Query → Option Result} {v : List Char} {e : Option (List Char)}
    (P : Prop) (w : Json → Json) (h : ∀ q, f q = some ⟨v, e, ⟨w q.Model⟩⟩)
    (hw : ∀ j k, k ≠ "fill" → k ≠ "fillInterval" → k ≠ "fillNull" → k ≠ "fillValue" →
        w j k = j k) (hP : ¬ P) :
    ∃ (v : List Char) (e : Option (List Char)) (w : Json → Json),
      (∀ q, f q = some ⟨v, e, ⟨w q.Model⟩⟩) ∧
      (∀ j k, k ≠ "fill" → k ≠ "fillInterval" → k ≠ "fillNull" → k ≠ "fillValue" →
        w j k = j k) ∧
      (P → ∀ j, w j = j) :=
  ⟨v, e, w, h, hw, fun hp => absurd hp hP⟩

theorem timeGroup_shape (lib : GoLib) (name : List Char) (args : List (List Char)) :
    ∃ (v : List Char) (e : Option (List Char)) (w : Json → Json),
      (∀ q, evaluateMacro.timeGroup lib q name args = some ⟨v, e, ⟨w q.Model⟩⟩) ∧
      (∀ j k, k ≠ "fill" → k ≠ "fillInterval" → k ≠ "fillNull" → k ≠ "fillValue" →
        w j k = j k) ∧
      (args.length ≠ 3 → ∀ j, w j = j) := by
  rcases args with _ | ⟨a0, _ | ⟨a1, rest⟩⟩
  · exact shape_of_pure _ (fun q => timeGroup_short lib q name [] (by simp))
  · exact shape_of_pure _ (fun q => timeGroup_short lib q name [a0] (by simp))
  · cases hd : lib.ParseDuration (strings.Trim a1 [squote, dquote]) with
    | none => exact shape_of_pure _ (fun q => timeGroup_bad_interval lib q name a0 a1 rest hd)
    | some d =>
      by_cases hlen : rest.length = 1
      · obtain ⟨a2, rfl⟩ := List.length_eq_one.mp hlen
        by_cases h2 : a2 = "NULL".toList
        · subst h2
          refine shape_of_write _ (fun j => ((j.Set "fill" (.bool true)).Set "fillInterval"
            (.float64 (Duration.Seconds d))).Set "fillNull" (.bool true))
            (fun q => (timeGroup_null lib q name a0 a1 d hd).trans (timeGroupExpr_eq _ a0 _ d))
            ?_ (by simp)
          intro j k h1 h2 h3 _
          beta_reduce
          rw [Json.Set_frame _ _ _ _ h3, Json.Set_frame _ _ _ _ h2, Json.Set_frame _ _ _ _ h1]
        · cases hf : lib.ParseFloat a2 with
          | none =>
            refine shape_of_write _ (fun j => (j.Set "fill" (.bool true)).Set "fillInterval"
              (.float64 (Duration.Seconds d)))
              (fun q => timeGroup_bad_fill lib q name a0 a1 a2 d hd h2 hf) ?_ (by simp)
            intro j k h1 h2 _ _
            beta_reduce
            rw [Json.Set_frame _ _ _ _ h2, Json.Set_frame _ _ _ _ h1]
          | some x =>
            refine shape_of_write _ (fun j => ((j.Set "fill" (.bool true)).Set "fillInterval"
              (.float64 (Duration.Seconds d))).Set "fillValue" (.float64 x))
              (fun q => (timeGroup_fill lib q name a0 a1 a2 d x hd h2 hf).trans
                (timeGroupExpr_eq _ a0 _ d)) ?_ (by simp)
            intro j k h1 h2 _ h4
            beta_reduce
            rw [Json.Set_frame _ _ _ _ h4, Json.Set_frame _ _ _ _ h2, Json.Set_frame _ _ _ _ h1]
      · exact shape_of_pure _ (fun q => (timeGroup_plain lib q name a0 a1 rest d hd hlen).trans
          (timeGroupExpr_eq _ a0 _ d))

theorem time_nil (q : Query) (name : List Char) :
    evaluateMacro.time q name [] = some ⟨[], some (errMissingTimeColumn name), q⟩ := rfl

theorem timeFilter_nil (tr : TimeRange) (q : Query) (name : List Char) :
    evaluateMacro.timeFilter tr q name [] = some ⟨[], some (errMissingTimeColumn name), q⟩ :=
  rfl

theorem unixEpochFilter_nil (tr : TimeRange) (q : Query) (name : List Char) :
    evaluateMacro.unixEpochFilter tr q name []
      = some ⟨[], some (errMissingTimeColumn name), q⟩ := rfl

theorem evaluateMacro_timeEpoch (lib : GoLib) (tr : TimeRange) (q : Query)
    (args : List (List Char)) :
    evaluateMacro lib tr q "__timeEpoch".toList args
      = evaluateMacro.time q "__timeEpoch".toList args := by
  unfold evaluateMacro
  rw [if_pos (Or.inl rfl)]

theorem evaluateMacro_time (lib : GoLib) (tr : TimeRange) (q : Query)
    (args : List (List Char)) :
    evaluateMacro lib tr q "__time".toList args = evaluateMacro.time q "__time".toList args := by
  unfold evaluateMacro
  rw [if_pos (Or.inr rfl)]

theorem evaluateMacro_timeFilter (lib : GoLib) (tr : TimeRange) (q : Query)
    (args : List (List Char)) :
    evaluateMacro lib tr q "__timeFilter".toList args
      = evaluateMacro.timeFilter tr q "__timeFilter".toList args := by
  unfold evaluateMacro
  rw [if_neg (by decide), if_pos rfl]

theorem evaluateMacro_timeFrom (lib : GoLib) (tr : TimeRange) (q : Query)
    (args : List (List Char)) :
    evaluateMacro lib tr q "__timeFrom".toList args
      = some ⟨"FROM_UNIXTIME(".toList ++ fmtD tr.fromEpoch ++ ")".toList, none, q⟩ := by
  unfold evaluateMacro
  rw [if_neg (by decide), if_neg (by decide), if_pos rfl]
  rfl

theorem evaluateMacro_timeTo (lib : GoLib) (tr : TimeRange) (q : Query)
    (args : List (List Char)) :
    evaluateMacro lib tr q "__timeTo".toList args
      = some ⟨"FROM_UNIXTIME(".toList ++ fmtD tr.toEpoch ++ ")".toList, none, q⟩ := by
  unfold evaluateMacro
  rw [if_neg (by decide), if_neg (by decide), if_neg (by decide), if_pos rfl]
  rfl

theorem evaluateMacro_timeGroup (lib : GoLib) (tr : TimeRange) (q : Query)
    (args : List (List Char)) :
    evaluateMacro lib tr q "__timeGroup".toList args
      = evaluateMacro.timeGroup lib q "__timeGroup".toList args := by
  unfold evaluateMacro
  rw [if_neg (by decide), if_neg (by decide), if_neg (by decide), if_neg (by decide),
    if_pos rfl]

theorem evaluateMacro_unixEpochFilter (lib : GoLib) (tr : TimeRange) (q : Query)
    (args : List (List Char)) :
    evaluateMacro lib tr q "__unixEpochFilter".toList args
      = evaluateMacro.unixEpochFilter tr q "__unixEpochFilter".toList args := by
  unfold evaluateMacro
  rw [if_neg (by decide), if_neg (by decide), if_neg (by decide), if_neg (by decide),
    if_neg (by decide), if_pos rfl]

theorem evaluateMacro_unixEpochFrom (lib : GoLib) (tr : TimeRange) (q : Query)
    (args : List (List Char)) :
    evaluateMacro lib tr q "__unixEpochFrom".toList args = some ⟨fmtD tr.fromEpoch, none, q⟩ := by
  unfold evaluateMacro
  rw [if_neg (by decide), if_neg (by decide), if_neg (by decide), if_neg (by decide),
    if_neg (by decide), if_neg (by decide), if_pos rfl]
  rfl

theorem evaluateMacro_unixEpochTo (lib : GoLib) (tr : TimeRange) (q : Query)
    (args : List (List Char)) :
    evaluateMacro lib tr q "__unixEpochTo".toList args = some ⟨fmtD tr.toEpoch, none, q⟩ := by
  unfold evaluateMacro
  rw [if_neg (by decide), if_neg (by decide), if_neg (by decide), if_neg (by decide),
    if_neg (by decide), if_neg (by decide), if_neg (by decide), if_pos rfl]
  rfl

theorem evaluateMacro_wherein (lib : GoLib) (tr : TimeRange) (q : Query)
    (args : List (List Char)) :
    evaluateMacro lib tr q "__wherein".toList args
      = evaluateMacro.wherein q "__wherein".toList args := by
  unfold evaluateMacro
  rw [if_neg (by decide), if_neg (by decide), if_neg (by decide), if_neg (by decide),
    if_neg (by decide), if_neg (by decide), if_neg (by decide), if_neg (by decide),
    if_pos rfl]

theorem evaluateMacro_unknown (lib : GoLib) (tr : TimeRange) (q : Query) (name : List Char)
    (args : List (List Char)) (h : name ∉ recognised) :
    evaluateMacro lib tr q name args = some ⟨[], some ("Unknown macro ".toList ++ name), q⟩ := by
  simp only [recognised, List.mem_cons, List.mem_singleton, List.not_mem_nil, or_false,
    not_or] at h
  obtain ⟨h1, h2, h3, h4, h5, h6, h7, h8, h9, h10⟩ := h
  unfold evaluateMacro
  rw [if_neg (not_or.mpr ⟨h1, h2⟩), if_neg h3, if_neg h4, if_neg h5, if_neg h6, if_neg h7,
    if_neg h8, if_neg h9, if_neg h10]

theorem evaluateMacro_shape (lib : GoLib) (tr : TimeRange) (name : List Char)
    (args : List (List Char)) :
    ∃ (v : List Char) (e : Option (List Char)) (w : Json → Json),
      (∀ q, evaluateMacro lib tr q name args = some ⟨v, e, ⟨w q.Model⟩⟩) ∧
      (∀ j k, k ≠ "fill" → k ≠ "fillInterval" → k ≠ "fillNull" → k ≠ "fillValue" →
        w j k = j k) ∧
      (¬(name = "__timeGroup".toList ∧ args.length = 3) → ∀ j, w j = j) := by
  by_cases h : name ∈ recognised
  · simp only [recognised, List.mem_cons, List.mem_singleton, List.not_mem_nil, or_false] at h
    rcases h with h | h | h | h | h | h | h | h | h | h <;> subst h
    · rcases args with _ | ⟨a0, rest⟩
      · exact shape_of_pure _ (fun q => (evaluateMacro_timeEpoch lib tr q _).trans (time_nil q _))
      · exact shape_of_pure _
          (fun q => (evaluateMacro_timeEpoch lib tr q _).trans (time_eq q _ a0 rest))
    · rcases args with _ | ⟨a0, rest⟩
      · exact shape_of_pure _ (fun q => (evaluateMacro_time lib tr q _).trans (time_nil q _))
      · exact shape_of_pure _ (fun q => (evaluateMacro_time lib tr q _).trans (time_eq q _ a0 rest))
    · rcases args with _ | ⟨a0, rest⟩
      · exact shape_of_pure _
          (fun q => (evaluateMacro_timeFilter lib tr q _).trans (timeFilter_nil tr q _))
      · exact shape_of_pure _
          (fun q => (evaluateMacro_timeFilter lib tr q _).trans (timeFilter_eq tr q _ a0 rest))
    · exact shape_of_pure _ (fun q => evaluateMacro_timeFrom lib tr q args)
    · exact shape_of_pure _ (fun q => evaluateMacro_timeTo lib tr q args)
    · obtain ⟨v, e, w, hw, hf, hid⟩ := timeGroup_shape lib "__timeGroup".toList args
      exact ⟨v, e, w, fun q => (evaluateMacro_timeGroup lib tr q args).trans (hw q), hf,
        fun hn => hid (fun hl => hn ⟨rfl, hl⟩)⟩
    · rcases args with _ | ⟨a0, rest⟩
      · exact shape_of_pure _
          (fun q => (evaluateMacro_unixEpochFilter lib tr q _).trans (unixEpochFilter_nil tr q _))
      · exact shape_of_pure _ (fun q =>
          (evaluateMacro_unixEpochFilter lib tr q _).trans (unixEpochFilter_eq tr q _ a0 rest))
    · exact shape_of_pure _ (fun q => evaluateMacro_unixEpochFrom lib tr q args)
    · exact shape_of_pure _ (fun q => evaluateMacro_unixEpochTo lib tr q args)
    · rcases args with _ | ⟨a0, _ | ⟨a1, rest⟩⟩
      · exact shape_of_pure _ (fun q =>
          (evaluateMacro_wherein lib tr q _).trans (wherein_short q _ [] (by simp)))
      · exact shape_of_pure _ (fun q =>
          (evaluateMacro_wherein lib tr q _).trans (wherein_short q _ [a0] (by simp)))
      · exact shape_of_pure _ (fun q =>
          (evaluateMacro_wherein lib tr q _).trans (wherein_eq q _ a0 a1 rest))
  · exact shape_of_pure _ (fun q => evaluateMacro_unknown lib tr q name args h)

theorem whereinLoop_eq (values params : List (List Char)) (hasNull : Bool) :
    whereinLoop values (params, hasNull)
      = (params ++ (values.filter (fun v => !isNullToken v)).map whereinQuote,
         hasNull || values.any isNullToken) := by
  induction values generalizing params hasNull with
  | nil => simp [whereinLoop]
  | cons v vs ih =>
    unfold whereinLoop
    by_cases hv : v = "NULL".toList ∨ v = "'NULL'".toList
    · have hn : isNullToken v = true := decide_eq_true hv
      rw [if_pos hv, ih]
      simp [hn]
    · have hn : isNullToken v = false := decide_eq_false hv
      rw [if_neg hv]
      by_cases hp : strings.HasPrefix v [squote] = true
      · simp only [hp, Bool.not_true, Bool.false_eq_true, if_false]
        rw [ih]
        simp [hn, whereinQuote, hp]
      · simp only [hp, Bool.not_false, if_true]
        rw [ih]
        simp [hn, whereinQuote, hp]

/-! ## The closure and the main loop -/

theorem evaluateMacro_eq_some (lib : GoLib) (tr : TimeRange) (q : Query) (name : List Char)
    (args : List (List Char)) :
    evaluateMacro lib tr q name args = some (evalD lib tr q name args) := by
  obtain ⟨v, e, w, hw, -, -⟩ := evaluateMacro_shape lib tr name args
  simp [evalD, hw q]

theorem evalD_val (lib : GoLib) (tr : TimeRange) (q q1 : Query) (name : List Char)
    (args : List (List Char)) :
    (evalD lib tr q name args).val = (evalD lib tr q1 name args).val := by
  obtain ⟨v, e, w, hw, -, -⟩ := evaluateMacro_shape lib tr name args
  simp [evalD, hw]

theorem evalD_err (lib : GoLib) (tr : TimeRange) (q q1 : Query) (name : List Char)
    (args : List (List Char)) :
    (evalD lib tr q name args).err = (evalD lib tr q1 name args).err := by
  obtain ⟨v, e, w, hw, -, -⟩ := evaluateMacro_shape lib tr name args
  simp [evalD, hw]

theorem evalD_frame (lib : GoLib) (tr : TimeRange) (q : Query) (name : List Char)
    (args : List (List Char)) (k : String) (h1 : k ≠ "fill") (h2 : k ≠ "fillInterval")
    (h3 : k ≠ "fillNull") (h4 : k ≠ "fillValue") :
    (evalD lib tr q name args).query.Model k = q.Model k := by
  obtain ⟨v, e, w, hw, hf, -⟩ := evaluateMacro_shape lib tr name args
  simp [evalD, hw, hf _ _ h1 h2 h3 h4]

theorem evalD_query (lib : GoLib) (tr : TimeRange) (q : Query) (name : List Char)
    (args : List (List Char)) (h : ¬(name = "__timeGroup".toList ∧ args.length = 3)) :
    (evalD lib tr q name args).query = q := by
  obtain ⟨v, e, w, hw, -, hid⟩ := evaluateMacro_shape lib tr name args
  simp [evalD, hw, hid h]

theorem evalError_iff (lib : GoLib) (tr : TimeRange) (inv : List Char × List (List Char))
    (e : Option (List Char)) (q : Query) :
    EvalError lib tr inv e ↔ (evalD lib tr q inv.1 inv.2).err = e := by
  constructor
  · intro h
    obtain ⟨r, hr, he⟩ := h q
    rw [evaluateMacro_eq_some] at hr
    cases hr
    exact he
  · intro h q1
    exact ⟨_, evaluateMacro_eq_some lib tr q1 inv.1 inv.2, by rw [evalD_err lib tr q1 q, h]⟩

theorem repl_eq_step (lib : GoLib) (tr : TimeRange) (m : Span)
    (st : Option (List Char) × Query) :
    Interpolate.repl lib tr [m.text, m.name, m.args] st = some (stepD lib tr st m) := by
  simp only [Interpolate.repl, stepD, tokens, List.getElem?_cons_zero, List.getElem?_cons_succ,
    Option.bind_eq_bind, Option.some_bind, evaluateMacro_eq_some]
  split_ifs <;> rfl

theorem Interpolate_eq (lib : GoLib) (q : Query) (tr : TimeRange) (sql : List Char) :
    ∃ segs rest, Layout 0 sql segs rest ∧ segs.map Prod.snd = spans sql ∧
      Interpolate lib q tr sql = some (finish (spliceRun (stepD lib tr) segs rest (none, q))) := by
  obtain ⟨segs, rest, hl, hmap⟩ := scan_layout sql.length sql 0 (Nat.le_refl _)
  refine ⟨segs, rest, hl, hmap, ?_⟩
  have hidx : FindAllSubmatchIndex sql = segs.map (fun x => x.2.indices) := by
    rw [FindAllSubmatchIndex, spans, ← hmap, List.map_map]
    rfl
  have hloop := replaceLoop_layout (stepD lib tr) (Interpolate.repl lib tr)
    (repl_eq_step lib tr) hl [] [] (none, q) rfl
  simp only [List.nil_append] at hloop
  simp only [Interpolate, replaceAllStringSubmatchFunc, hidx, hloop, Option.bind_eq_bind,
    Option.some_bind, finish]
  split <;> simp_all

/-- The invocation of a span: macro name and argument tokens. -/
theorem invocations_eq_map {sql : List Char} {segs : List (List Char × Span)}
    (h : segs.map Prod.snd = spans sql) :
    invocations sql = segs.map (fun seg => (seg.2.name, tokens seg.2.args)) := by
  rw [invocations, ← h, List.map_map]
  rfl

theorem spliceRun_query (lib : GoLib) (tr : TimeRange) (segs : List (List Char × Span))
    (rest : List Char) (st : Option (List Char) × Query) :
    (spliceRun (stepD lib tr) segs rest st).2.2
      = (segs.map (fun seg => (seg.2.name, tokens seg.2.args))).foldl
          (fun q inv => (evalD lib tr q inv.1 inv.2).query) st.2 := by
  induction segs generalizing st with
  | nil => rfl
  | cons seg segs ih =>
    obtain ⟨lit, m⟩ := seg
    simp only [spliceRun, List.map_cons, List.foldl_cons]
    rw [ih]
    congr 1
    simp only [stepD]
    split_ifs <;> rfl

theorem spliceRun_err (lib : GoLib) (tr : TimeRange) (segs : List (List Char × Span))
    (rest : List Char) (st : Option (List Char) × Query) :
    (spliceRun (stepD lib tr) segs rest st).2.1
      = st.1.or ((segs.map (fun seg => (seg.2.name, tokens seg.2.args))).findSome?
          (fun inv => (evalD lib tr emptyQuery inv.1 inv.2).err)) := by
  induction segs generalizing st with
  | nil => simp [spliceRun]
  | cons seg segs ih =>
    obtain ⟨lit, m⟩ := seg
    simp only [spliceRun, List.map_cons, List.findSome?_cons]
    rw [ih]
    have he := evalD_err lib tr st.2 emptyQuery m.name (tokens m.args)
    simp only [stepD]
    rw [he]
    cases h1 : st.1 <;> cases h2 : (evalD lib tr emptyQuery m.name (tokens m.args)).err <;>
      simp [h1, h2]

theorem spliceRun_text (lib : GoLib) (tr : TimeRange) (segs : List (List Char × Span))
    (rest : List Char) (st : Option (List Char) × Query)
    (h : ∀ seg ∈ segs, (evalD lib tr emptyQuery seg.2.name (tokens seg.2.args)).err = none) :
    (spliceRun (stepD lib tr) segs rest st).1
      = (segs.map (fun seg =>
          seg.1 ++ (evalD lib tr emptyQuery seg.2.name (tokens seg.2.args)).val)).flatten
          ++ rest := by
  induction segs generalizing st with
  | nil => simp [spliceRun]
  | cons seg segs ih =>
    obtain ⟨lit, m⟩ := seg
    have h0 := h (lit, m) (List.mem_cons_self _ _)
    have he := evalD_err lib tr st.2 emptyQuery m.name (tokens m.args)
    have hv := evalD_val lib tr st.2 emptyQuery m.name (tokens m.args)
    simp only at h0
    simp only [spliceRun, List.map_cons, List.flatten_cons]
    rw [ih _ (fun seg hs => h seg (List.mem_cons_of_mem _ hs))]
    simp [stepD, he, h0, hv]

theorem findSome_cases {α β : Type} (f : α → Option β) (l : List α) :
    (l.findSome? f = none ∧ ∀ x ∈ l, f x = none) ∨
    ∃ pre x post e, l = pre ++ x :: post ∧ (∀ y ∈ pre, f y = none) ∧ f x = some e ∧
      l.findSome? f = some e := by
  induction l with
  | nil => left; simp
  | cons a l ih =>
    cases ha : f a with
    | some e => exact Or.inr ⟨[], a, l, e, rfl, by simp, ha, by simp [List.findSome?_cons, ha]⟩
    | none =>
      rcases ih with ⟨h1, h2⟩ | ⟨pre, x, post, e, hl, hpre, hx, hf⟩
      · left
        refine ⟨by simp [List.findSome?_cons, ha, h1], ?_⟩
        intro x hx
        rcases List.mem_cons.mp hx with rfl | hx
        · exact ha
        · exact h2 x hx
      · right
        refine ⟨a :: pre, x, post, e, by simp [hl], ?_, hx, by simp [List.findSome?_cons, ha, hf]⟩
        intro y hy
        rcases List.mem_cons.mp hy with rfl | hy
        · exact ha
        · exact hpre y hy

theorem finish_err (out : List Char × (Option (List Char) × Query)) :
    (finish out).err = out.2.1 := by
  unfold finish
  split <;> simp_all

theorem finish_query (out : List Char × (Option (List Char) × Query)) :
    (finish out).query = out.2.2 := by
  unfold finish
  split <;> rfl

theorem finish_val_of_err (out : List Char × (Option (List Char) × Query))
    (h : out.2.1 ≠ none) : (finish out).val = [] := by
  unfold finish
  split
  · rfl
  · contradiction

theorem finish_val_of_ok (out : List Char × (Option (List Char) × Query))
    (h : out.2.1 = none) : (finish out).val = out.1 := by
  unfold finish
  split
  · simp_all
  · rfl

theorem Interpolate_spec (lib : GoLib) (q : Query) (tr : TimeRange) (sql : List Char) :
    ∃ segs rest r, Layout 0 sql segs rest ∧ segs.map Prod.snd = spans sql ∧
      Interpolate lib q tr sql = some r ∧
      r.err = (invocations sql).findSome?
        (fun inv => (evalD lib tr emptyQuery inv.1 inv.2).err) ∧
      r.query = (invocations sql).foldl (fun q inv => (evalD lib tr q inv.1 inv.2).query) q ∧
      (r.err ≠ none → r.val = []) ∧
      (r.err = none → r.val = (segs.map (fun seg =>
          seg.1 ++ (evalD lib tr emptyQuery seg.2.name (tokens seg.2.args)).val)).flatten
          ++ rest) := by
  obtain ⟨segs, rest, hl, hmap, hI⟩ := Interpolate_eq lib q tr sql
  have herr := spliceRun_err lib tr segs rest (none, q)
  simp only [Option.none_or, ← invocations_eq_map hmap] at herr
  refine ⟨segs, rest, _, hl, hmap, hI, ?_, ?_, ?_, ?_⟩
  · rw [finish_err, herr]
  · rw [finish_query, spliceRun_query, ← invocations_eq_map hmap]
  · intro h
    rw [finish_err] at h
    exact finish_val_of_err _ h
  · intro h
    rw [finish_err] at h
    rw [finish_val_of_ok _ h]
    apply spliceRun_text
    intro seg hseg
    rw [herr, List.findSome?_eq_none_iff] at h
    exact h (seg.2.name, tokens seg.2.args)
      (by rw [invocations_eq_map hmap]; exact List.mem_map_of_mem _ hseg)

theorem evalD_timeGroup_null (lib : GoLib) (tr : TimeRange) (q : Query)
    (col interval : List Char) (n : ℤ)
    (hn : lib.ParseDuration (strings.Trim interval [squote, dquote]) = some (n * 1000000000)) :
    evalD lib tr q "__timeGroup".toList [col, interval, "NULL".toList]
      = ⟨"cast(cast(UNIX_TIMESTAMP(".toList ++ col ++ ")/(".toList ++ fmtD n
          ++ ") as signed)*".toList ++ fmtD n ++ " as signed)".toList, none,
         ⟨((q.Model.Set "fill" (.bool true)).Set "fillInterval" (.float64 (.finite n))).Set
            "fillNull" (.bool true)⟩⟩ := by
  rw [evalD, evaluateMacro_timeGroup, timeGroup_null lib q _ col interval _ hn,
    timeGroupExpr_eq, Seconds_whole n (lib.duration_int64 _ _ hn), fmtF0_intCast]
  rfl

theorem evalD_unknown (lib : GoLib) (tr : TimeRange) (q : Query) (name : List Char)
    (args : List (List Char)) (h : name ∉ recognised) :
    evalD lib tr q name args = ⟨[], some ("Unknown macro ".toList ++ name), q⟩ := by
  rw [evalD, evaluateMacro_unknown lib tr q name args h]
  rfl

theorem foldl_query_frame (lib : GoLib) (tr : TimeRange)
    (invs : List (List Char × List (List Char)))
    (h : ∀ inv ∈ invs, ¬(inv.1 = "__timeGroup".toList ∧ inv.2.length = 3)) (q : Query) :
    invs.foldl (fun q inv => (evalD lib tr q inv.1 inv.2).query) q = q := by
  induction invs generalizing q with
  | nil => rfl
  | cons inv invs ih =>
    rw [List.foldl_cons, evalD_query lib tr q inv.1 inv.2 (h inv (List.mem_cons_self _ _))]
    exact ih (fun i hi => h i (List.mem_cons_of_mem _ hi)) q

theorem foldl_query_keys (lib : GoLib) (tr : TimeRange)
    (invs : List (List Char × List (List Char))) (q : Query) (k : String)
    (h1 : k ≠ "fill") (h2 : k ≠ "fillInterval") (h3 : k ≠ "fillNull") (h4 : k ≠ "fillValue") :
    (invs.foldl (fun q inv => (evalD lib tr q inv.1 inv.2).query) q).Model k = q.Model k := by
  induction invs generalizing q with
  | nil => rfl
  | cons inv invs ih =>
    rw [List.foldl_cons, ih, evalD_frame lib tr q inv.1 inv.2 k h1 h2 h3 h4]

theorem filter_not_null_eq_self (values : List (List Char))
    (h : ∀ v ∈ values, v ≠ "NULL".toList ∧ v ≠ "'NULL'".toList) :
    values.filter (fun v => !isNullToken v) = values ∧ values.any isNullToken = false := by
  have hn : ∀ v ∈ values, isNullToken v = false := fun v hv =>
    decide_eq_false (not_or.mpr (h v hv))
  constructor
  · rw [List.filter_eq_self]
    intro v hv
    simp [hn v hv]
  · rw [List.any_eq_false]
    intro v hv
    simp [hn v hv]

theorem wherein_list (lib : GoLib) (tr : TimeRange) (q : Query) (col v : List Char)
    (rest : List (List Char))
    (h : ¬(rest = [] ∧ (v = "ALL".toList ∨ v = "'ALL'".toList ∨ v = "NULL".toList
      ∨ v = "'NULL'".toList))) :
    evaluateMacro lib tr q "__wherein".toList (col :: v :: rest)
      = some ⟨
          if (v :: rest).any isNullToken then
            whereinColumn col ++ " in (".toList
              ++ strings.Join
                  (((v :: rest).filter (fun v => !isNullToken v)).map whereinQuote) ",".toList
              ++ ") or ".toList ++ col ++ " IS NULL".toList
          else
            whereinColumn col ++ " in (".toList
              ++ strings.Join
                  (((v :: rest).filter (fun v => !isNullToken v)).map whereinQuote) ",".toList
              ++ ")".toList,
          none, q⟩ := by
  have h1 : ¬(rest = [] ∧ (v = "ALL".toList ∨ v = "'ALL'".toList)) := by tauto
  have h2 : ¬(rest = [] ∧ (v = "NULL".toList ∨ v = "'NULL'".toList)) := by tauto
  rw [evaluateMacro_wherein, wherein_eq, if_neg h1, if_neg h2, whereinLoop_eq]
  simp only [List.nil_append, Bool.false_or]
  rfl

/-! ## The claims -/

/-- C1: `Interpolate` fails if and only if at least one matched invocation evaluates
to an error; when it fails it returns the empty string as SQL and the error of the
leftmost failing invocation, the one before which every invocation evaluates without
error. -/
theorem C1_interpolate_first_error (lib : GoLib) (q : Query) (tr : TimeRange)
    (sql : List Char) :
    ∃ r, Interpolate lib q tr sql = some r ∧
      (r.err ≠ none ↔ ∃ inv ∈ invocations sql, ∃ e, EvalError lib tr inv (some e)) ∧
      (r.err ≠ none → r.val = [] ∧
        ∃ pre inv post, invocations sql = pre ++ inv :: post ∧
          (∀ i ∈ pre, EvalError lib tr i none) ∧ EvalError lib tr inv r.err) := by
  obtain ⟨segs, rest, r, -, -, hI, herr, -, hval, -⟩ := Interpolate_spec lib q tr sql
  refine ⟨r, hI, ?_, ?_⟩
  · rw [herr]
    constructor
    · intro h
      obtain ⟨e, he⟩ := Option.ne_none_iff_exists'.mp h
      obtain ⟨inv, hinv, hfe⟩ := List.exists_of_findSome?_eq_some he
      exact ⟨inv, hinv, e, (evalError_iff lib tr inv _ emptyQuery).mpr hfe⟩
    · rintro ⟨inv, hinv, e, he⟩ hnone
      rw [List.findSome?_eq_none_iff] at hnone
      have := (evalError_iff lib tr inv _ emptyQuery).mp he
      rw [hnone inv hinv] at this
      cases this
  · intro h
    refine ⟨hval h, ?_⟩
    rcases findSome_cases (fun inv => (evalD lib tr emptyQuery inv.1 inv.2).err)
      (invocations sql) with ⟨h1, -⟩ | ⟨pre, inv, post, e, hl, hpre, hx, hf⟩
    · rw [herr] at h
      exact absurd h1 h
    · refine ⟨pre, inv, post, hl, ?_, ?_⟩
      · intro i hi
        exact (evalError_iff lib tr i _ emptyQuery).mpr (hpre i hi)
      · rw [herr, hf]
        exact (evalError_iff lib tr inv _ emptyQuery).mpr hx

/-- C2: a template without any match of the macro grammar `$IDENT(ARGS)` is returned
as it is, without error, and the context is left unchanged. -/
theorem C2_literal_template_unchanged (lib : GoLib) (q : Query) (tr : TimeRange)
    (sql : List Char) (h : ¬ HasMacroSyntax sql) :
    Interpolate lib q tr sql = some ⟨sql, none, q⟩ := by
  obtain ⟨segs, rest, hl, hmap, hI⟩ := Interpolate_eq lib q tr sql
  have hs : spans sql = [] := scanFrom_eq_nil h 0
  rw [hs, List.map_eq_nil_iff] at hmap
  subst hmap
  cases hl
  rw [hI]
  rfl

/-- C2, at the template `select '$5', f($x) from t`, which has `$` signs and
parentheses, but no macro. -/
theorem C2_literal_template_unchanged_witness :
    ¬ HasMacroSyntax "select '$5', f($x) from t".toList ∧
    Interpolate refLib emptyQuery ⟨1000, 2000⟩ "select '$5', f($x) from t".toList
      = some ⟨"select '$5', f($x) from t".toList, none, emptyQuery⟩ :=
  ⟨(hasMacroSyntax_iff _).not.mpr (by decide),
   C2_literal_template_unchanged refLib emptyQuery ⟨1000, 2000⟩ _
     ((hasMacroSyntax_iff _).not.mpr (by decide))⟩

theorem spans_unixEpochFrom {a b : List Char} (ha : '$' ∉ a) (hb : '$' ∉ b) :
    spans (a ++ "$__unixEpochFrom()".toList ++ b)
      = [⟨a.length, "__unixEpochFrom".toList, []⟩] := by
  have e : a ++ "$__unixEpochFrom()".toList ++ b
      = a ++ ('$' :: ("__unixEpochFrom".toList ++ '(' :: ([] ++ ')' :: b))) := by
    simp
  have hm : matchHere ('$' :: ("__unixEpochFrom".toList ++ '(' :: ([] ++ ')' :: b)))
      = some ("__unixEpochFrom".toList, []) :=
    matchHere_complete b (by decide) (by decide) (by simp)
  rw [spans, e, scanFrom_append_literal ha, scanFrom_cons_some _ hm]
  have hd : List.drop ("__unixEpochFrom".toList.length + ([] : List Char).length + 2)
      ("__unixEpochFrom".toList ++ '(' :: ([] ++ ')' :: b)) = b := by
    simp
  rw [hd, scanFrom_literal hb]
  simp

/-- C3: when every matched invocation evaluates without error, the string that
`Interpolate` returns is the template with each matched span replaced by its fragment:
the text before the first span, the fragments and the texts between the spans in their
order, and the text after the last span; so `a ++ "$__unixEpochFrom()" ++ b` gives
`a ++ decimal(fromEpoch) ++ b` when `a` and `b` hold no `$`. -/
theorem C3_spliced_output (lib : GoLib) (q : Query) (tr : TimeRange) (sql : List Char)
    (h : ∀ inv ∈ invocations sql, EvalError lib tr inv none) :
    (∃ r, Interpolate lib q tr sql = some r ∧ r.err = none ∧ Spliced lib tr sql r.val) ∧
    (∀ a b : List Char, '$' ∉ a → '$' ∉ b →
      Interpolate lib q tr (a ++ "$__unixEpochFrom()".toList ++ b)
        = some ⟨a ++ fmtD tr.fromEpoch ++ b, none, q⟩) := by
  constructor
  · obtain ⟨segs, rest, r, hl, hmap, hI, herr, -, -, hval⟩ := Interpolate_spec lib q tr sql
    have hnone : r.err = none := by
      rw [herr, List.findSome?_eq_none_iff]
      intro inv hinv
      exact (evalError_iff lib tr inv _ emptyQuery).mp (h inv hinv)
    refine ⟨r, hI, hnone, segs.map (fun seg =>
      (seg.1, seg.2, (evalD lib tr emptyQuery seg.2.name (tokens seg.2.args)).val)), rest,
      ?_, ?_, ?_, ?_⟩
    · rw [List.map_map]
      exact hl.text_eq
    · rw [List.map_map, ← hmap]
      rfl
    · intro s hs q1
      obtain ⟨seg, -, rfl⟩ := List.mem_map.mp hs
      exact ⟨_, evaluateMacro_eq_some lib tr q1 _ _, evalD_val lib tr q1 emptyQuery _ _⟩
    · rw [hval hnone, List.map_map]
      rfl
  · intro a b ha hb
    obtain ⟨segs, rest, r, hl, hmap, hI, herr, hq, -, hval⟩ :=
      Interpolate_spec lib q tr (a ++ "$__unixEpochFrom()".toList ++ b)
    have hinv : invocations (a ++ "$__unixEpochFrom()".toList ++ b)
        = [("__unixEpochFrom".toList, tokens [])] := by
      rw [invocations, spans_unixEpochFrom ha hb]
      rfl
    have hev : ∀ q1, evalD lib tr q1 "__unixEpochFrom".toList (tokens [])
        = ⟨fmtD tr.fromEpoch, none, q1⟩ := by
      intro q1
      rw [evalD, evaluateMacro_unixEpochFrom]
      rfl
    rw [spans_unixEpochFrom ha hb] at hmap
    obtain ⟨seg, rfl⟩ : ∃ seg, segs = [seg] := by
      rcases segs with _ | ⟨seg, _ | ⟨seg2, tl⟩⟩
      · simp at hmap
      · exact ⟨seg, rfl⟩
      · simp at hmap
    obtain ⟨lit, m⟩ := seg
    simp only [List.map_cons, List.map_nil, List.cons.injEq, and_true] at hmap
    subst hmap
    obtain ⟨s1, hs1, hstart, hl2⟩ := hl.cons_inv
    have hrest := hl2.nil_inv
    subst hrest
    simp only [Nat.zero_add] at hstart
    have e2 : a ++ ("$__unixEpochFrom()".toList ++ b)
        = lit ++ (Span.text ⟨a.length, "__unixEpochFrom".toList, []⟩ ++ s1) := by
      rw [← hs1]
      simp
    obtain ⟨hlit, hs⟩ := List.append_inj e2 hstart
    have hb1 : b = s1 := by
      have : "$__unixEpochFrom()".toList ++ b
          = "$__unixEpochFrom()".toList ++ s1 := hs
      exact List.append_cancel_left this
    subst hlit hb1
    have hnone : r.err = none := by
      rw [herr, hinv]
      simp only [List.findSome?_cons, hev, List.findSome?_nil]
    have hv := hval hnone
    simp only [List.map_cons, List.map_nil, List.flatten_cons, List.flatten_nil,
      List.append_nil, hev] at hv
    have hq2 : r.query = q := by
      rw [hq, hinv]
      simp only [List.foldl_cons, hev, List.foldl_nil]
    rw [hI]
    congr 1
    obtain ⟨v, e, q2⟩ := r
    simp only at hnone hv hq2
    rw [hnone, hv, hq2]

theorem example_template_evaluates :
    ∀ inv ∈ invocations "select $__timeFilter(ts) from t where x < $__unixEpochTo()".toList,
      EvalError refLib ⟨1000, 2000⟩ inv none := by
  have hinv : invocations "select $__timeFilter(ts) from t where x < $__unixEpochTo()".toList
      = [("__timeFilter".toList, ["ts".toList]), ("__unixEpochTo".toList, [[]])] := by
    decide
  intro inv hi
  rw [hinv] at hi
  simp only [List.mem_cons, List.mem_singleton, List.not_mem_nil, or_false] at hi
  rcases hi with rfl | rfl
  · exact (evalError_iff _ _ _ _ emptyQuery).mpr
      (by rw [evalD, evaluateMacro_timeFilter, timeFilter_eq]; rfl)
  · exact (evalError_iff _ _ _ _ emptyQuery).mpr
      (by rw [evalD, evaluateMacro_unixEpochTo]; rfl)

/-- C3, at the template `select $__timeFilter(ts) from t where x < $__unixEpochTo()`
over the range `[1000, 2000]`. -/
theorem C3_spliced_output_witness :
    (∀ inv ∈ invocations "select $__timeFilter(ts) from t where x < $__unixEpochTo()".toList,
      EvalError refLib ⟨1000, 2000⟩ inv none) ∧
    ∃ r, Interpolate refLib emptyQuery ⟨1000, 2000⟩
        "select $__timeFilter(ts) from t where x < $__unixEpochTo()".toList = some r ∧
      r.err = none ∧
      Spliced refLib ⟨1000, 2000⟩
        "select $__timeFilter(ts) from t where x < $__unixEpochTo()".toList r.val :=
  ⟨example_template_evaluates,
   (C3_spliced_output refLib emptyQuery ⟨1000, 2000⟩ _ example_template_evaluates).1⟩

theorem Interpolate_query (lib : GoLib) (q : Query) (tr : TimeRange) (sql : List Char) :
    ∃ r, Interpolate lib q tr sql = some r ∧
      r.err = (invocations sql).findSome?
        (fun inv => (evalD lib tr emptyQuery inv.1 inv.2).err) ∧
      r.query = (invocations sql).foldl (fun q inv => (evalD lib tr q inv.1 inv.2).query) q ∧
      (r.err ≠ none → r.val = []) := by
  obtain ⟨_, _, r, -, -, hI, herr, hq, hval, -⟩ := Interpolate_spec lib q tr sql
  exact ⟨r, hI, herr, hq, hval⟩

/-- C4, as stated, fails: in
`$__timeGroup(ts,'1m',NULL) $__timeGroup(ts,'5m',NULL) $__nope()` the invocation
`__timeGroup(ts,'1m',NULL)` has a valid interval of 60 seconds and `__nope` is not
recognised, yet the context ends with `fillInterval` 300, written by the second
`__timeGroup`, and not 60. -/
theorem C4_counterexample :
    ("__timeGroup".toList, ["ts".toList, "'1m'".toList, "NULL".toList]) ∈
      invocations "$__timeGroup(ts,'1m',NULL) $__timeGroup(ts,'5m',NULL) $__nope()".toList ∧
    refLib.ParseDuration (strings.Trim "'1m'".toList [squote, dquote])
      = some (60 * 1000000000) ∧
    ("__nope".toList, [[]]) ∈
      invocations "$__timeGroup(ts,'1m',NULL) $__timeGroup(ts,'5m',NULL) $__nope()".toList ∧
    "__nope".toList ∉ recognised ∧
    (Interpolate refLib emptyQuery ⟨1000, 2000⟩
        "$__timeGroup(ts,'1m',NULL) $__timeGroup(ts,'5m',NULL) $__nope()".toList).map
      (fun r => r.query.Model "fillInterval") = some (some (.float64 (.finite 300))) ∧
    (Interpolate refLib emptyQuery ⟨1000, 2000⟩
        "$__timeGroup(ts,'1m',NULL) $__timeGroup(ts,'5m',NULL) $__nope()".toList).map
      (fun r => r.query.Model "fillInterval") ≠ some (some (.float64 (.finite 60))) := by
  have hinv :
      invocations "$__timeGroup(ts,'1m',NULL) $__timeGroup(ts,'5m',NULL) $__nope()".toList
        = [("__timeGroup".toList, ["ts".toList, "'1m'".toList, "NULL".toList]),
           ("__timeGroup".toList, ["ts".toList, "'5m'".toList, "NULL".toList]),
           ("__nope".toList, [[]])] := by decide
  have h1 : refLib.ParseDuration (strings.Trim "'1m'".toList [squote, dquote])
      = some (60 * 1000000000) := by decide
  have h5 : refLib.ParseDuration (strings.Trim "'5m'".toList [squote, dquote])
      = some (300 * 1000000000) := by decide
  have hno : "__nope".toList ∉ recognised := by decide
  obtain ⟨r, hI, -, hq, -⟩ := Interpolate_query refLib emptyQuery ⟨1000, 2000⟩
    "$__timeGroup(ts,'1m',NULL) $__timeGroup(ts,'5m',NULL) $__nope()".toList
  have hval : r.query.Model "fillInterval" = some (.float64 (.finite 300)) := by
    rw [hq, hinv]
    simp only [List.foldl_cons, List.foldl_nil]
    rw [evalD_timeGroup_null _ _ _ _ _ 60 h1, evalD_timeGroup_null _ _ _ _ _ 300 h5,
      evalD_unknown _ _ _ _ _ hno]
    rfl
  refine ⟨by rw [hinv]; simp, h1, by rw [hinv]; simp, hno, ?_, ?_⟩
  · rw [hI, Option.map_some', hval]
  · rw [hI, Option.map_some', hval]
    intro h
    simp at h

/-- C4, amended: when the template contains an invocation `$__timeGroup(col, interval,
NULL)` with a valid interval of `n` seconds that no later `__timeGroup` invocation with
exactly three argument tokens follows, and also an invocation of an unrecognised macro,
before or after it, `Interpolate` fails and returns no SQL, yet the context after the
call has `fill = true`, `fillInterval = n` and `fillNull = true`. -/
theorem C4_side_effects_survive_error (lib : GoLib) (q : Query) (tr : TimeRange)
    (sql : List Char) (pre post : List (List Char × List (List Char)))
    (col interval : List Char) (n : ℤ) (unk : List Char × List (List Char))
    (hinv : invocations sql
      = pre ++ ("__timeGroup".toList, [col, interval, "NULL".toList]) :: post)
    (hn : lib.ParseDuration (strings.Trim interval [squote, dquote]) = some (n * 1000000000))
    (hpost : ∀ inv ∈ post, ¬(inv.1 = "__timeGroup".toList ∧ inv.2.length = 3))
    (hunk : unk ∈ pre ++ post) (hname : unk.1 ∉ recognised) :
    ∃ r, Interpolate lib q tr sql = some r ∧ r.err ≠ none ∧ r.val = [] ∧
      r.query.Model "fill" = some (.bool true) ∧
      r.query.Model "fillInterval" = some (.float64 (.finite n)) ∧
      r.query.Model "fillNull" = some (.bool true) := by
  obtain ⟨r, hI, herr, hq, hval⟩ := Interpolate_query lib q tr sql
  have hfail : r.err ≠ none := by
    rw [herr]
    intro hnone
    rw [List.findSome?_eq_none_iff] at hnone
    have hmem : unk ∈ invocations sql := by
      rw [hinv]
      rcases List.mem_append.mp hunk with h | h
      · exact List.mem_append_left _ h
      · exact List.mem_append_right _ (List.mem_cons_of_mem _ h)
    have := hnone unk hmem
    rw [evalD_unknown lib tr emptyQuery unk.1 unk.2 hname] at this
    cases this
  have hquery : r.query = ⟨(((List.foldl (fun q inv => (evalD lib tr q inv.1 inv.2).query) q
      pre).Model.Set "fill" (.bool true)).Set "fillInterval" (.float64 (.finite n))).Set
        "fillNull" (.bool true)⟩ := by
    rw [hq, hinv, List.foldl_append, List.foldl_cons, foldl_query_frame lib tr post hpost]
    simp only
    rw [evalD_timeGroup_null lib tr _ col interval n hn]
  refine ⟨r, hI, hfail, hval hfail, ?_, ?_, ?_⟩ <;> rw [hquery] <;> simp [Json.Set]

/-- C4, amended, at `$__timeGroup(ts,'1m',NULL) $__nope()`: the call fails and the
context has `fill = true`, `fillInterval = 60`, `fillNull = true`. -/
theorem C4_side_effects_survive_error_witness :
    (invocations "$__timeGroup(ts,'1m',NULL) $__nope()".toList
      = [] ++ ("__timeGroup".toList, ["ts".toList, "'1m'".toList, "NULL".toList])
          :: [("__nope".toList, [[]])] ∧
     refLib.ParseDuration (strings.Trim "'1m'".toList [squote, dquote])
      = some (60 * 1000000000) ∧
     "__nope".toList ∉ recognised) ∧
    ∃ r, Interpolate refLib emptyQuery ⟨1000, 2000⟩
        "$__timeGroup(ts,'1m',NULL) $__nope()".toList = some r ∧
      r.err ≠ none ∧ r.val = [] ∧
      r.query.Model "fill" = some (.bool true) ∧
      r.query.Model "fillInterval" = some (.float64 (.finite (60 : ℤ))) ∧
      r.query.Model "fillNull" = some (.bool true) :=
  ⟨⟨by decide, by decide, by decide⟩,
   C4_side_effects_survive_error refLib emptyQuery ⟨1000, 2000⟩
     "$__timeGroup(ts,'1m',NULL) $__nope()".toList [] [("__nope".toList, [[]])]
     "ts".toList "'1m'".toList 60 ("__nope".toList, [[]]) (by decide) (by decide)
     (by decide) (by decide) (by decide)⟩

/-- C5: when no matched invocation is `__timeGroup` with exactly three argument
tokens, the context after `Interpolate` is the context before it, whether the call
succeeds or fails; and for every template the only keys whose values can differ after
the call are `fill`, `fillInterval`, `fillNull` and `fillValue`. -/
theorem C5_context_frame (lib : GoLib) (q : Query) (tr : TimeRange) (sql : List Char) :
    ∃ r, Interpolate lib q tr sql = some r ∧
      ((∀ inv ∈ invocations sql, ¬(inv.1 = "__timeGroup".toList ∧ inv.2.length = 3)) →
        r.query = q) ∧
      (∀ k, k ∉ ["fill", "fillInterval", "fillNull", "fillValue"] →
        r.query.Model k = q.Model k) := by
  obtain ⟨r, hI, -, hq, -⟩ := Interpolate_query lib q tr sql
  refine ⟨r, hI, ?_, ?_⟩
  · intro h
    rw [hq, foldl_query_frame lib tr _ h]
  · intro k hk
    simp only [List.mem_cons, List.mem_singleton, List.not_mem_nil, or_false, not_or] at hk
    rw [hq, foldl_query_keys lib tr _ q k hk.1 hk.2.1 hk.2.2.1 hk.2.2.2]

/-- C5, at two templates over a context that holds the key `format`: one without a
three-argument `__timeGroup` (it fails on `$__nope()`), after which the context is
the same, and one with `$__timeGroup(ts,'1m',0)`, after which `format` is the same. -/
theorem C5_context_frame_witness :
    (∀ inv ∈ invocations "select $__timeGroup(ts,'1m') as t, $__nope() from x".toList,
      ¬(inv.1 = "__timeGroup".toList ∧ inv.2.length = 3)) ∧
    "format" ∉ ["fill", "fillInterval", "fillNull", "fillValue"] ∧
    (∃ r, Interpolate refLib sampleQuery ⟨1000, 2000⟩
        "select $__timeGroup(ts,'1m') as t, $__nope() from x".toList = some r ∧
      r.query = sampleQuery) ∧
    (∃ r, Interpolate refLib sampleQuery ⟨1000, 2000⟩
        "select $__timeGroup(ts,'1m',0) as t from x".toList = some r ∧
      r.query.Model "format" = some (.string "time_series".toList)) :=
  ⟨by decide, by decide,
   (C5_context_frame refLib sampleQuery ⟨1000, 2000⟩
      "select $__timeGroup(ts,'1m') as t, $__nope() from x".toList).imp
     (fun _ h => ⟨h.1, h.2.1 (by decide)⟩),
   (C5_context_frame refLib sampleQuery ⟨1000, 2000⟩
      "select $__timeGroup(ts,'1m',0) as t from x".toList).imp
     (fun _ h => ⟨h.1, h.2.2 "format" (by decide)⟩)⟩

/-- C6: `__timeFilter` with the column token `col`, used as it is, evaluates to
`col >= FROM_UNIXTIME(fromEpoch) AND col <= FROM_UNIXTIME(toEpoch)`, the bounds printed
as decimal integers; over the range `[1000, 2000]` the template `$__timeFilter(ts)`
expands to `ts >= FROM_UNIXTIME(1000) AND ts <= FROM_UNIXTIME(2000)`. -/
theorem C6_timeFilter_output (lib : GoLib) (tr : TimeRange) (q : Query) (col : List Char)
    (rest : List (List Char)) :
    evaluateMacro lib tr q "__timeFilter".toList (col :: rest)
      = some ⟨col ++ " >= FROM_UNIXTIME(".toList ++ fmtD tr.fromEpoch ++ ") AND ".toList
          ++ col ++ " <= FROM_UNIXTIME(".toList ++ fmtD tr.toEpoch ++ ")".toList, none, q⟩ ∧
    fmtD 1000 = "1000".toList ∧ fmtD 2000 = "2000".toList ∧ fmtD (-5) = "-5".toList ∧
    Interpolate refLib emptyQuery ⟨1000, 2000⟩ "$__timeFilter(ts)".toList
      = some ⟨"ts >= FROM_UNIXTIME(1000) AND ts <= FROM_UNIXTIME(2000)".toList, none,
          emptyQuery⟩ := by
  refine ⟨?_, by decide, by decide, by decide, by rfl⟩
  rw [evaluateMacro_timeFilter, timeFilter_eq]

/-- C7: `__timeGroup(col, interval, NULL)`, for an interval token that, stripped of its
surrounding quote characters, is a duration of a whole number `n` of seconds, evaluates
without error to `cast(cast(UNIX_TIMESTAMP(col)/(n) as signed)*n as signed)`, with the
same `n` as divisor and as multiplier, and the context afterwards has `fill = true`,
`fillInterval = n` and `fillNull = true`. -/
theorem C7_timeGroup_null (lib : GoLib) (tr : TimeRange) (q : Query)
    (col interval : List Char) (n : ℤ)
    (hn : lib.ParseDuration (strings.Trim interval [squote, dquote]) = some (n * 1000000000)) :
    ∃ r, evaluateMacro lib tr q "__timeGroup".toList [col, interval, "NULL".toList] = some r ∧
      r.err = none ∧
      r.val = "cast(cast(UNIX_TIMESTAMP(".toList ++ col ++ ")/(".toList ++ fmtD n
        ++ ") as signed)*".toList ++ fmtD n ++ " as signed)".toList ∧
      r.query.Model "fill" = some (.bool true) ∧
      r.query.Model "fillInterval" = some (.float64 (.finite n)) ∧
      r.query.Model "fillNull" = some (.bool true) := by
  refine ⟨_, evaluateMacro_eq_some lib tr q _ _, ?_⟩
  rw [evalD_timeGroup_null lib tr q col interval n hn]
  simp [Json.Set]

/-- C7, at `__timeGroup(ts, '1m', NULL)`: the expression uses 60 and the context has
`fillInterval = 60`. -/
theorem C7_timeGroup_null_witness :
    refLib.ParseDuration (strings.Trim "'1m'".toList [squote, dquote])
      = some (60 * 1000000000) ∧
    ∃ r, evaluateMacro refLib ⟨1000, 2000⟩ emptyQuery "__timeGroup".toList
        ["ts".toList, "'1m'".toList, "NULL".toList] = some r ∧
      r.err = none ∧
      r.val = "cast(cast(UNIX_TIMESTAMP(ts)/(60) as signed)*60 as signed)".toList ∧
      r.query.Model "fill" = some (.bool true) ∧
      r.query.Model "fillInterval" = some (.float64 (.finite 60)) ∧
      r.query.Model "fillNull" = some (.bool true) :=
  ⟨by decide,
   C7_timeGroup_null refLib ⟨1000, 2000⟩ emptyQuery "ts".toList "'1m'".toList 60 (by decide)⟩

/-- C8, as stated, fails: `__wherein(c, 'a)` is in the list form and gives `c in ('a)`;
the value token `'a` is emitted as it is, and it is not enclosed in single quotes. -/
theorem C8_counterexample :
    evaluateMacro refLib ⟨1000, 2000⟩ emptyQuery "__wherein".toList ["c".toList, "'a".toList]
      = some ⟨"c in ('a)".toList, none, emptyQuery⟩ ∧
    "'a".toList.getLast? ≠ some squote ∧
    Interpolate refLib emptyQuery ⟨1000, 2000⟩ "$__wherein(c, 'a)".toList
      = some ⟨"c in ('a)".toList, none, emptyQuery⟩ :=
  ⟨by rfl, by decide, by rfl⟩

/-- C8, amended: in the list form of `__wherein` (at least one value token, no `NULL`
sentinel among them, and not the single `ALL` case) the output is `col in (v1,...,vn)`,
the values in their order joined by `,` without spaces, where every value token that
begins with a single quote is emitted as it is and every other value token is put
between two single quotes, so that every emitted value begins with a single quote. -/
theorem C8_wherein_list_form (lib : GoLib) (tr : TimeRange) (q : Query) (col : List Char)
    (values : List (List Char)) (hne : values ≠ [])
    (hnull : ∀ v ∈ values, v ≠ "NULL".toList ∧ v ≠ "'NULL'".toList)
    (hall : values ≠ ["ALL".toList] ∧ values ≠ ["'ALL'".toList]) :
    evaluateMacro lib tr q "__wherein".toList (col :: values)
      = some ⟨whereinColumn col ++ " in (".toList
          ++ strings.Join (values.map whereinQuote) ",".toList ++ ")".toList, none, q⟩ ∧
    (∀ v ∈ values, v.head? = some squote → whereinQuote v = v) ∧
    (∀ v ∈ values, v.head? ≠ some squote → whereinQuote v = squote :: (v ++ [squote])) ∧
    (∀ e ∈ values.map whereinQuote, e.head? = some squote) := by
  have hq1 : ∀ v : List Char, v.head? = some squote → whereinQuote v = v := by
    intro v hv
    rw [whereinQuote, if_pos ((HasPrefix_squote v).mpr hv)]
  have hq2 : ∀ v : List Char, v.head? ≠ some squote →
      whereinQuote v = squote :: (v ++ [squote]) := by
    intro v hv
    rw [whereinQuote, if_neg (fun h => hv ((HasPrefix_squote v).mp h))]
  refine ⟨?_, fun v _ => hq1 v, fun v _ => hq2 v, ?_⟩
  · obtain ⟨v, rest, rfl⟩ := List.exists_cons_of_ne_nil hne
    have hform : ¬(rest = [] ∧ (v = "ALL".toList ∨ v = "'ALL'".toList ∨ v = "NULL".toList
        ∨ v = "'NULL'".toList)) := by
      rintro ⟨rfl, h | h | h | h⟩
      · exact hall.1 (by rw [h])
      · exact hall.2 (by rw [h])
      · exact (hnull v (List.mem_cons_self _ _)).1 h
      · exact (hnull v (List.mem_cons_self _ _)).2 h
    obtain ⟨hf, ha⟩ := filter_not_null_eq_self (v :: rest) hnull
    rw [wherein_list lib tr q col v rest hform, ha, hf]
    rfl
  · intro e he
    obtain ⟨v, -, rfl⟩ := List.mem_map.mp he
    by_cases hv : v.head? = some squote
    · rw [hq1 v hv]
      exact hv
    · rw [hq2 v hv]
      rfl

/-- C8, amended, at `__wherein('c', 'a', 'b')`, which gives `c in ('a','b')`, and at
`__wherein(c, a, 'b')`, where `a` is put between quotes. -/
theorem C8_wherein_list_form_witness :
    (["'a'".toList, "'b'".toList] ≠ [] ∧
     (∀ v ∈ ["'a'".toList, "'b'".toList], v ≠ "NULL".toList ∧ v ≠ "'NULL'".toList) ∧
     ["'a'".toList, "'b'".toList] ≠ ["ALL".toList] ∧
     ["'a'".toList, "'b'".toList] ≠ ["'ALL'".toList]) ∧
    evaluateMacro refLib ⟨1000, 2000⟩ emptyQuery "__wherein".toList
        ["'c'".toList, "'a'".toList, "'b'".toList]
      = some ⟨"c in ('a','b')".toList, none, emptyQuery⟩ ∧
    evaluateMacro refLib ⟨1000, 2000⟩ emptyQuery "__wherein".toList
        ["c".toList, "a".toList, "'b'".toList]
      = some ⟨"c in ('a','b')".toList, none, emptyQuery⟩ :=
  ⟨⟨by decide, by decide, by decide, by decide⟩,
   (C8_wherein_list_form refLib ⟨1000, 2000⟩ emptyQuery "'c'".toList
      ["'a'".toList, "'b'".toList] (by decide) (by decide) ⟨by decide, by decide⟩).1,
   (C8_wherein_list_form refLib ⟨1000, 2000⟩ emptyQuery "c".toList
      ["a".toList, "'b'".toList] (by decide) (by decide) ⟨by decide, by decide⟩).1⟩

/-- C10, as stated, fails: the token `c'` keeps its trailing quote, because it has no
leading one (`__wherein(c', NULL)` gives `c' IS NULL`), and the token `''c''` loses two
quotes at each end, not one (`__wherein(''c'', NULL)` gives `c IS NULL`). -/
theorem C10_counterexample :
    evaluateMacro refLib ⟨1000, 2000⟩ emptyQuery "__wherein".toList
        ["c'".toList, "NULL".toList]
      = some ⟨"c' IS NULL".toList, none, emptyQuery⟩ ∧
    evaluateMacro refLib ⟨1000, 2000⟩ emptyQuery "__wherein".toList
        ["''c''".toList, "NULL".toList]
      = some ⟨"c IS NULL".toList, none, emptyQuery⟩ ∧
    Interpolate refLib emptyQuery ⟨1000, 2000⟩ "$__wherein(c', 'a')".toList
      = some ⟨"c' in ('a')".toList, none, emptyQuery⟩ :=
  ⟨by rfl, by rfl, by rfl⟩

/-- C10, amended: the column name in the outputs `col IS NULL` and `col in (...)` of
`__wherein` is the first argument token as it is when the token does not begin with a
single quote, and otherwise the token without all of its leading and all of its trailing
single quotes: what is removed at either end are single quotes only, and what is left
neither begins nor ends with one. -/
theorem C10_wherein_column_name (lib : GoLib) (tr : TimeRange) (q : Query)
    (col v : List Char) (rest : List (List Char)) :
    ((v = "NULL".toList ∨ v = "'NULL'".toList) →
      evaluateMacro lib tr q "__wherein".toList [col, v]
        = some ⟨whereinColumn col ++ " IS NULL".toList, none, q⟩) ∧
    (¬(rest = [] ∧ (v = "ALL".toList ∨ v = "'ALL'".toList ∨ v = "NULL".toList
        ∨ v = "'NULL'".toList)) →
      ∃ tail, evaluateMacro lib tr q "__wherein".toList (col :: v :: rest)
        = some ⟨whereinColumn col ++ " in (".toList ++ tail, none, q⟩) ∧
    (col.head? ≠ some squote → whereinColumn col = col) ∧
    (col.head? = some squote →
      ∃ pre suf, col = pre ++ (whereinColumn col ++ suf) ∧
        (∀ c ∈ pre, c = squote) ∧ (∀ c ∈ suf, c = squote) ∧
        (whereinColumn col).head? ≠ some squote ∧
        (whereinColumn col).getLast? ≠ some squote) := by
  refine ⟨?_, ?_, ?_, ?_⟩
  · intro hv
    have h1 : ¬(([] : List (List Char)) = [] ∧ (v = "ALL".toList ∨ v = "'ALL'".toList)) := by
      rintro ⟨-, h | h⟩ <;> rcases hv with hv | hv <;> rw [hv] at h <;> revert h <;> decide
    rw [evaluateMacro_wherein, wherein_eq, if_neg h1, if_pos ⟨rfl, hv⟩]
    rfl
  · intro h
    rw [wherein_list lib tr q col v rest h]
    split_ifs
    · exact ⟨strings.Join
        (((v :: rest).filter (fun v => !isNullToken v)).map whereinQuote) ",".toList
        ++ ") or ".toList ++ col ++ " IS NULL".toList, by simp only [List.append_assoc]⟩
    · exact ⟨strings.Join
        (((v :: rest).filter (fun v => !isNullToken v)).map whereinQuote) ",".toList
        ++ ")".toList, by simp only [List.append_assoc]⟩
  · intro h
    rw [whereinColumn, if_neg (fun hp => h ((HasPrefix_squote col).mp hp))]
  · intro h
    obtain ⟨pre, suf, hcol, hpre, hsuf, hhead, hlast⟩ := Trim_spec col [squote]
    have hw : whereinColumn col = strings.Trim col [squote] := by
      rw [whereinColumn, if_pos ((HasPrefix_squote col).mpr h)]
    rw [hw]
    refine ⟨pre, suf, hcol, ?_, ?_, ?_, ?_⟩
    · intro c hc
      simpa using hpre c hc
    · intro c hc
      simpa using hsuf c hc
    · intro hh
      exact hhead squote hh (List.mem_singleton_self _)
    · intro hh
      exact hlast squote hh (List.mem_singleton_self _)

theorem tokens_nil : tokens [] = [[]] := by decide

theorem Split_ne_nil (s : List Char) (sep : Char) : strings.Split s sep ≠ [] := by
  induction s with
  | nil => simp [strings.Split]
  | cons c cs ih =>
    unfold strings.Split
    split_ifs
    · simp
    · split <;> simp

theorem tokens_ne_nil (raw : List Char) : tokens raw ≠ [] := by
  intro hn
  exact Split_ne_nil raw ',' (List.map_eq_nil_iff.mp hn)

theorem intercalate_cons_cons {α : Type} (sep x y : List α) (l : List (List α)) :
    sep.intercalate (x :: y :: l) = x ++ (sep ++ sep.intercalate (y :: l)) := by
  simp [List.intercalate, List.intersperse]

theorem Split_spec (s : List Char) (sep : Char) :
    [sep].intercalate (strings.Split s sep) = s ∧ ∀ p ∈ strings.Split s sep, sep ∉ p := by
  induction s with
  | nil => simp [strings.Split, List.intercalate]
  | cons c cs ih =>
    obtain ⟨hjoin, hmem⟩ := ih
    obtain ⟨piece, pieces, hsp⟩ := List.exists_cons_of_ne_nil (Split_ne_nil cs sep)
    rw [hsp] at hjoin hmem
    unfold strings.Split
    split_ifs with hc
    · rw [hsp, intercalate_cons_cons, hjoin, hc]
      refine ⟨rfl, ?_⟩
      intro p hp
      rcases List.mem_cons.mp hp with rfl | hp
      · simp
      · exact hmem p hp
    · rw [hsp]
      simp only
      constructor
      · cases pieces with
        | nil =>
          simp only [List.intercalate, List.intersperse, List.flatten_cons, List.flatten_nil,
            List.append_nil] at hjoin ⊢
          rw [hjoin]
        | cons y l =>
          rw [intercalate_cons_cons] at hjoin ⊢
          rw [List.cons_append, hjoin]
      · intro p hp
        rcases List.mem_cons.mp hp with rfl | hp
        · intro hin
          rcases List.mem_cons.mp hin with h | h
          · exact hc h.symm
          · exact hmem piece (List.mem_cons_self _ _) h
        · exact hmem p (List.mem_cons_of_mem _ hp)

/-- C11, as stated, fails: in `__timeGroup(ts,'1m','NULL')` the interval is valid, yet the
quoted form `'NULL'` is taken for a fill value, the evaluation fails with
`error parsing fill value 'NULL'` and `fillNull` is not written. -/
theorem C11_counterexample :
    refLib.ParseDuration (strings.Trim "'1m'".toList [squote, dquote])
      = some (60 * 1000000000) ∧
    (evaluateMacro refLib ⟨1000, 2000⟩ emptyQuery "__timeGroup".toList
        ["ts".toList, "'1m'".toList, "'NULL'".toList]).map
      (fun r => (r.val, r.err, r.query.Model "fillNull"))
      = some ([], some "error parsing fill value 'NULL'".toList, none) ∧
    (Interpolate refLib emptyQuery ⟨1000, 2000⟩ "$__timeGroup(ts,'1m','NULL')".toList).map
      (fun r => (r.val, r.err, r.query.Model "fillNull"))
      = some ([], some "error parsing fill value 'NULL'".toList, none) :=
  ⟨by decide, by rfl, by rfl⟩

/-- C11, amended: for every column token and every valid interval token, a `__timeGroup`
invocation whose third argument token is `NULL` succeeds and sets `fill = true`,
`fillInterval` to the seconds of the interval and `fillNull = true`; the quoted form
`'NULL'` is not the sentinel: it is parsed as a fill value, `fillNull` is not written,
and when it is no floating-point literal the evaluation fails. -/
theorem C11_timeGroup_null_sentinel (lib : GoLib) (tr : TimeRange) (q : Query)
    (col interval : List Char) (d : ℤ)
    (hd : lib.ParseDuration (strings.Trim interval [squote, dquote]) = some d) :
    (∃ r, evaluateMacro lib tr q "__timeGroup".toList [col, interval, "NULL".toList] = some r ∧
      r.err = none ∧
      r.query.Model "fill" = some (.bool true) ∧
      r.query.Model "fillInterval" = some (.float64 (Duration.Seconds d)) ∧
      r.query.Model "fillNull" = some (.bool true)) ∧
    (∃ r, evaluateMacro lib tr q "__timeGroup".toList [col, interval, "'NULL'".toList]
        = some r ∧
      r.query.Model "fillNull" = q.Model "fillNull" ∧
      (lib.ParseFloat "'NULL'".toList = none →
        r.val = [] ∧ r.err = some "error parsing fill value 'NULL'".toList)) := by
  constructor
  · refine ⟨_, (evaluateMacro_timeGroup lib tr q _).trans
      ((timeGroup_null lib q _ col interval d hd).trans (timeGroupExpr_eq _ col _ d)), ?_⟩
    simp [Json.Set]
  · cases hf : lib.ParseFloat "'NULL'".toList with
    | none =>
      refine ⟨_, (evaluateMacro_timeGroup lib tr q _).trans
        (timeGroup_bad_fill lib q _ col interval _ d hd (by decide) hf), ?_, ?_⟩
      · simp [Json.Set]
      · intro _
        exact ⟨rfl, rfl⟩
    | some x =>
      refine ⟨_, (evaluateMacro_timeGroup lib tr q _).trans
        ((timeGroup_fill lib q _ col interval _ d x hd (by decide) hf).trans
          (timeGroupExpr_eq _ col _ d)), ?_, ?_⟩
      · simp [Json.Set]
      · intro h
        cases h

/-- C11, amended, at `__timeGroup(ts, '1m', NULL)` and `__timeGroup(ts, '1m', 'NULL')`. -/
theorem C11_timeGroup_null_sentinel_witness :
    refLib.ParseDuration (strings.Trim "'1m'".toList [squote, dquote])
      = some (60 * 1000000000) ∧
    (∃ r, evaluateMacro refLib ⟨1000, 2000⟩ emptyQuery "__timeGroup".toList
        ["ts".toList, "'1m'".toList, "NULL".toList] = some r ∧
      r.err = none ∧
      r.query.Model "fill" = some (.bool true) ∧
      r.query.Model "fillInterval" = some (.float64 (Duration.Seconds (60 * 1000000000))) ∧
      r.query.Model "fillNull" = some (.bool true)) ∧
    (∃ r, evaluateMacro refLib ⟨1000, 2000⟩ emptyQuery "__timeGroup".toList
        ["ts".toList, "'1m'".toList, "'NULL'".toList] = some r ∧
      r.query.Model "fillNull" = emptyQuery.Model "fillNull" ∧
      (refLib.ParseFloat "'NULL'".toList = none →
        r.val = [] ∧ r.err = some "error parsing fill value 'NULL'".toList)) :=
  ⟨by decide,
   C11_timeGroup_null_sentinel refLib ⟨1000, 2000⟩ emptyQuery "ts".toList "'1m'".toList
     (60 * 1000000000) (by decide)⟩

/-- C12 on the code: through `Interpolate` the empty argument text gives the one
token `""`, so the guard `len(args) == 0` of `__time` and `__timeEpoch` never holds:
`$__time()` and `$__timeEpoch()` expand to `UNIX_TIMESTAMP() as time_sec` without
error, where the claim has the `missing time column argument` error, which the handler
returns only for an empty token list; with a column token `col` the macro evaluates to
`UNIX_TIMESTAMP(col) as time_sec`. -/
theorem C12_time_empty_argument_accepted (lib : GoLib) (q : Query) (tr : TimeRange) :
    Interpolate lib q tr "$__time()".toList
      = some ⟨"UNIX_TIMESTAMP() as time_sec".toList, none, q⟩ ∧
    Interpolate lib q tr "$__timeEpoch()".toList
      = some ⟨"UNIX_TIMESTAMP() as time_sec".toList, none, q⟩ ∧
    (∀ raw, tokens raw ≠ []) ∧
    evaluateMacro lib tr q "__time".toList []
      = some ⟨[], some "missing time column argument for macro __time".toList, q⟩ ∧
    evaluateMacro lib tr q "__timeEpoch".toList []
      = some ⟨[], some "missing time column argument for macro __timeEpoch".toList, q⟩ ∧
    (∀ col rest, evaluateMacro lib tr q "__time".toList (col :: rest)
      = some ⟨"UNIX_TIMESTAMP(".toList ++ col ++ ") as time_sec".toList, none, q⟩) ∧
    (∀ col rest, evaluateMacro lib tr q "__timeEpoch".toList (col :: rest)
      = some ⟨"UNIX_TIMESTAMP(".toList ++ col ++ ") as time_sec".toList, none, q⟩) ∧
    Interpolate lib q tr "select $__time(ts)".toList
      = some ⟨"select UNIX_TIMESTAMP(ts) as time_sec".toList, none, q⟩ := by
  refine ⟨by rfl, by rfl, tokens_ne_nil, by rfl, by rfl, ?_, ?_, by rfl⟩
  · intro col rest
    rw [evaluateMacro_time, time_eq]
  · intro col rest
    rw [evaluateMacro_timeEpoch, time_eq]

/-- C13, as stated, fails: only the space character is trimmed; the argument text of
`$__timeFilter(<tab>ts)` gives the token `<tab>ts`, which starts with a whitespace
character, and a newline at the end of a token is kept in the same way. -/
theorem C13_counterexample :
    tokens "\tts".toList = ["\tts".toList] ∧
    "\tts".toList.head? = some (Char.ofNat 9) ∧
    tokens " a\n , b ".toList = ["a\n".toList, "b".toList] ∧
    Interpolate refLib emptyQuery ⟨1000, 2000⟩ "$__timeFilter(\tts)".toList
      = some ⟨"\tts >= FROM_UNIXTIME(1000) AND \tts <= FROM_UNIXTIME(2000)".toList, none,
          emptyQuery⟩ :=
  ⟨by decide, by decide, by decide, by rfl⟩

/-- C13, amended: the argument tokens handed to the macro handler are the pieces of the
raw argument text split on `,`, each without its leading and trailing space characters
and otherwise as it is (tabs, newlines, interior characters and quote characters are
kept), so that no token starts or ends with a space. -/
theorem C13_argument_tokens (lib : GoLib) (tr : TimeRange) (whole name raw : List Char)
    (st : Option (List Char) × Query) :
    (∃ r, evaluateMacro lib tr st.2 name (tokens raw) = some r ∧
      Interpolate.repl lib tr [whole, name, raw] st
        = some (if r.err.isSome && st.1.isNone then
            ("macro_error()".toList, (r.err, r.query)) else (r.val, (st.1, r.query)))) ∧
    tokens raw = (strings.Split raw ',').map (fun p => strings.Trim p [' ']) ∧
    [','].intercalate (strings.Split raw ',') = raw ∧
    (∀ p ∈ strings.Split raw ',', ',' ∉ p ∧
      ∃ pre suf, p = pre ++ (strings.Trim p [' '] ++ suf) ∧
        (∀ c ∈ pre, c = ' ') ∧ (∀ c ∈ suf, c = ' ')) ∧
    (∀ t ∈ tokens raw, t.head? ≠ some ' ' ∧ t.getLast? ≠ some ' ') := by
  refine ⟨⟨_, evaluateMacro_eq_some lib tr st.2 name (tokens raw), ?_⟩, rfl,
    (Split_spec raw ',').1, ?_, ?_⟩
  · simp only [Interpolate.repl, List.getElem?_cons_zero, List.getElem?_cons_succ,
      Option.bind_eq_bind, Option.some_bind]
    have e : List.map (fun arg => strings.Trim arg [' ']) (strings.Split raw ',')
        = tokens raw := rfl
    rw [e, evaluateMacro_eq_some]
    simp only [Option.some_bind]
    split_ifs <;> rfl
  · intro p hp
    refine ⟨(Split_spec raw ',').2 p hp, ?_⟩
    obtain ⟨pre, suf, hp1, hpre, hsuf, -, -⟩ := Trim_spec p [' ']
    exact ⟨pre, suf, hp1, fun c hc => by simpa using hpre c hc,
      fun c hc => by simpa using hsuf c hc⟩
  · intro t ht
    obtain ⟨p, -, rfl⟩ := List.mem_map.mp ht
    obtain ⟨pre, suf, -, -, -, hhead, hlast⟩ := Trim_spec p [' ']
    exact ⟨fun h => hhead ' ' h (List.mem_singleton_self _),
      fun h => hlast ' ' h (List.mem_singleton_self _)⟩

theorem Interpolate_fails_of_mem (lib : GoLib) (q : Query) (tr : TimeRange) (sql : List Char)
    (inv : List Char × List (List Char)) (hmem : inv ∈ invocations sql)
    (herr : (evalD lib tr emptyQuery inv.1 inv.2).err ≠ none) :
    ∃ r, Interpolate lib q tr sql = some r ∧ r.err ≠ none ∧ r.val = [] := by
  obtain ⟨r, hI, he, -, hval⟩ := Interpolate_query lib q tr sql
  have hfail : r.err ≠ none := by
    rw [he]
    intro hnone
    rw [List.findSome?_eq_none_iff] at hnone
    exact herr (hnone inv hmem)
  exact ⟨r, hI, hfail, hval hfail⟩

/-- C14: every macro name other than the ten recognised names evaluates, for every
argument list, to the error `Unknown macro <name>`; hence a template with such an
invocation makes `Interpolate` fail without SQL string, whatever comes before it. -/
theorem C14_unknown_name_fails (lib : GoLib) (tr : TimeRange) (q : Query) (name : List Char)
    (args : List (List Char)) (h : name ∉ recognised) :
    evaluateMacro lib tr q name args = some ⟨[], some ("Unknown macro ".toList ++ name), q⟩ ∧
    ∀ (sql : List Char) (q0 : Query), (name, args) ∈ invocations sql →
      ∃ r, Interpolate lib q0 tr sql = some r ∧ r.err ≠ none ∧ r.val = [] := by
  refine ⟨evaluateMacro_unknown lib tr q name args h, ?_⟩
  intro sql q0 hmem
  apply Interpolate_fails_of_mem lib q0 tr sql (name, args) hmem
  rw [evalD_unknown lib tr emptyQuery name args h]
  simp

/-- C14, at `$__nope()` after a valid macro; the comparison of names distinguishes
upper and lower case, so `__TIME` is not recognised either. -/
theorem C14_unknown_name_fails_witness :
    "__nope".toList ∉ recognised ∧ "__TIME".toList ∉ recognised ∧
    evaluateMacro refLib ⟨1000, 2000⟩ emptyQuery "__nope".toList [[]]
      = some ⟨[], some "Unknown macro __nope".toList, emptyQuery⟩ ∧
    ∃ r, Interpolate refLib emptyQuery ⟨1000, 2000⟩
        "select $__timeFrom(), $__nope()".toList = some r ∧ r.err ≠ none ∧ r.val = [] :=
  ⟨by decide, by decide,
   (C14_unknown_name_fails refLib ⟨1000, 2000⟩ emptyQuery "__nope".toList [[]] (by decide)).1,
   (C14_unknown_name_fails refLib ⟨1000, 2000⟩ emptyQuery "__nope".toList [[]] (by decide)).2
     "select $__timeFrom(), $__nope()".toList emptyQuery (by decide)⟩

/-- C15: a `__timeGroup` invocation with at least two tokens whose interval token,
stripped of its surrounding single and double quotes, is no duration string evaluates to
the error `error parsing interval <token>` and writes nothing to the context, a third
argument or not; a template with such an invocation makes `Interpolate` fail without
output string. -/
theorem C15_timeGroup_invalid_interval (lib : GoLib) (tr : TimeRange) (q : Query)
    (a0 a1 : List Char) (rest : List (List Char))
    (h : lib.ParseDuration (strings.Trim a1 [squote, dquote]) = none) :
    evaluateMacro lib tr q "__timeGroup".toList (a0 :: a1 :: rest)
      = some ⟨[], some ("error parsing interval ".toList ++ a1), q⟩ ∧
    ∀ (sql : List Char) (q0 : Query),
      ("__timeGroup".toList, a0 :: a1 :: rest) ∈ invocations sql →
      ∃ r, Interpolate lib q0 tr sql = some r ∧ r.err ≠ none ∧ r.val = [] := by
  have hev : evaluateMacro lib tr emptyQuery "__timeGroup".toList (a0 :: a1 :: rest)
      = some ⟨[], some ("error parsing interval ".toList ++ a1), emptyQuery⟩ :=
    (evaluateMacro_timeGroup lib tr emptyQuery _).trans
      (timeGroup_bad_interval lib emptyQuery _ a0 a1 rest h)
  refine ⟨(evaluateMacro_timeGroup lib tr q _).trans
    (timeGroup_bad_interval lib q _ a0 a1 rest h), ?_⟩
  intro sql q0 hmem
  apply Interpolate_fails_of_mem lib q0 tr sql _ hmem
  simp only [evalD, hev]
  simp

/-- C15, at `__timeGroup(ts, 'bogus')` and, with a fill argument,
`__timeGroup(ts, 'bogus', NULL)`, after which the context is the same. -/
theorem C15_timeGroup_invalid_interval_witness :
    refLib.ParseDuration (strings.Trim "'bogus'".toList [squote, dquote]) = none ∧
    evaluateMacro refLib ⟨1000, 2000⟩ sampleQuery "__timeGroup".toList
        ["ts".toList, "'bogus'".toList]
      = some ⟨[], some "error parsing interval 'bogus'".toList, sampleQuery⟩ ∧
    evaluateMacro refLib ⟨1000, 2000⟩ sampleQuery "__timeGroup".toList
        ["ts".toList, "'bogus'".toList, "NULL".toList]
      = some ⟨[], some "error parsing interval 'bogus'".toList, sampleQuery⟩ ∧
    ∃ r, Interpolate refLib sampleQuery ⟨1000, 2000⟩
        "select $__timeGroup(ts, 'bogus') from t".toList = some r ∧
      r.err ≠ none ∧ r.val = [] :=
  ⟨by decide,
   (C15_timeGroup_invalid_interval refLib ⟨1000, 2000⟩ sampleQuery "ts".toList
      "'bogus'".toList [] (by decide)).1,
   (C15_timeGroup_invalid_interval refLib ⟨1000, 2000⟩ sampleQuery "ts".toList
      "'bogus'".toList ["NULL".toList] (by decide)).1,
   (C15_timeGroup_invalid_interval refLib ⟨1000, 2000⟩ sampleQuery "ts".toList
      "'bogus'".toList [] (by decide)).2
     "select $__timeGroup(ts, 'bogus') from t".toList sampleQuery (by decide)⟩

theorem evalD_timeGroup_bad_fill (lib : GoLib) (tr : TimeRange) (q : Query)
    (col interval x : List Char) (n : ℤ)
    (hn : lib.ParseDuration (strings.Trim interval [squote, dquote]) = some (n * 1000000000))
    (hx : x ≠ "NULL".toList) (hf : lib.ParseFloat x = none) :
    evalD lib tr q "__timeGroup".toList [col, interval, x]
      = ⟨[], some ("error parsing fill value ".toList ++ x),
         ⟨(q.Model.Set "fill" (.bool true)).Set "fillInterval" (.float64 (.finite n))⟩⟩ := by
  rw [evalD, evaluateMacro_timeGroup, timeGroup_bad_fill lib q _ col interval x _ hn hx hf,
    Seconds_whole n (lib.duration_int64 _ _ hn)]
  rfl

/-- C16, as stated, fails: in `$__timeGroup(ts,'1m',abc) $__timeGroup(ts,'5m',NULL)`
the first invocation has a valid interval of 60 seconds and the fill value `abc`, which
is neither `NULL` nor a floating-point literal; `Interpolate` fails with
`error parsing fill value abc`, yet the context after the call has `fillInterval` 300
and `fillNull = true`, written by the second invocation, where the claim has
`fillInterval = 60` and `fillNull` as before the call, which is absent. -/
theorem C16_counterexample :
    ("__timeGroup".toList, ["ts".toList, "'1m'".toList, "abc".toList]) ∈
      invocations "$__timeGroup(ts,'1m',abc) $__timeGroup(ts,'5m',NULL)".toList ∧
    refLib.ParseDuration (strings.Trim "'1m'".toList [squote, dquote])
      = some (60 * 1000000000) ∧
    "abc".toList ≠ "NULL".toList ∧ refLib.ParseFloat "abc".toList = none ∧
    emptyQuery.Model "fillNull" = none ∧
    (Interpolate refLib emptyQuery ⟨1000, 2000⟩
        "$__timeGroup(ts,'1m',abc) $__timeGroup(ts,'5m',NULL)".toList).map
      (fun r => (r.val, r.err, r.query.Model "fillInterval", r.query.Model "fillNull"))
      = some ([], some "error parsing fill value abc".toList,
          some (.float64 (.finite 300)), some (.bool true)) ∧
    (Interpolate refLib emptyQuery ⟨1000, 2000⟩
        "$__timeGroup(ts,'1m',abc) $__timeGroup(ts,'5m',NULL)".toList).map
      (fun r => r.query.Model "fillInterval") ≠ some (some (.float64 (.finite 60))) := by
  have hinv : invocations "$__timeGroup(ts,'1m',abc) $__timeGroup(ts,'5m',NULL)".toList
      = [("__timeGroup".toList, ["ts".toList, "'1m'".toList, "abc".toList]),
         ("__timeGroup".toList, ["ts".toList, "'5m'".toList, "NULL".toList])] := by decide
  have h1 : refLib.ParseDuration (strings.Trim "'1m'".toList [squote, dquote])
      = some (60 * 1000000000) := by decide
  have h5 : refLib.ParseDuration (strings.Trim "'5m'".toList [squote, dquote])
      = some (300 * 1000000000) := by decide
  have hx : "abc".toList ≠ "NULL".toList := by decide
  have hf : refLib.ParseFloat "abc".toList = none := by decide
  obtain ⟨r, hI, he, hq, hval⟩ := Interpolate_query refLib emptyQuery ⟨1000, 2000⟩
    "$__timeGroup(ts,'1m',abc) $__timeGroup(ts,'5m',NULL)".toList
  have herr : r.err = some "error parsing fill value abc".toList := by
    rw [he, hinv]
    simp only [List.findSome?_cons]
    rw [evalD_timeGroup_bad_fill _ _ _ _ _ _ 60 h1 hx hf]
    rfl
  have hv : r.val = [] := hval (by rw [herr]; exact Option.some_ne_none _)
  have hquery : r.query = ⟨((((emptyQuery.Model.Set "fill" (.bool true)).Set "fillInterval"
      (.float64 (.finite (60 : ℤ)))).Set "fill" (.bool true)).Set "fillInterval"
      (.float64 (.finite (300 : ℤ)))).Set "fillNull" (.bool true)⟩ := by
    rw [hq, hinv]
    simp only [List.foldl_cons, List.foldl_nil]
    rw [evalD_timeGroup_bad_fill _ _ _ _ _ _ 60 h1 hx hf,
      evalD_timeGroup_null _ _ _ _ _ 300 h5]
  have hfi : r.query.Model "fillInterval" = some (.float64 (.finite 300)) := by
    rw [hquery]
    rfl
  have hfn : r.query.Model "fillNull" = some (.bool true) := by
    rw [hquery]
    rfl
  refine ⟨by rw [hinv]; simp, h1, hx, hf, rfl, ?_, ?_⟩
  · rw [hI, Option.map_some', hv, herr, hfi, hfn]
  · rw [hI, Option.map_some', hfi]
    intro h
    simp at h

/-- C16, amended: a `__timeGroup(col, interval, x)` invocation with a valid interval of
`n` seconds, where `x` is not `NULL` and is no floating-point literal, evaluates to the
error `error parsing fill value <x>`, and the context after that evaluation has
`fill = true` and `fillInterval = n` written while `fillNull` and `fillValue` are as
before it; a template with such an invocation makes `Interpolate` fail without SQL, and
when no other invocation of the template is a `__timeGroup` with exactly three argument
tokens the context after `Interpolate` has `fill = true` and `fillInterval = n`, with
`fillNull` and `fillValue` as before the call. -/
theorem C16_partial_writes_kept (lib : GoLib) (tr : TimeRange) (q : Query)
    (col interval x : List Char) (n : ℤ)
    (hn : lib.ParseDuration (strings.Trim interval [squote, dquote]) = some (n * 1000000000))
    (hx : x ≠ "NULL".toList) (hf : lib.ParseFloat x = none) :
    (∃ r, evaluateMacro lib tr q "__timeGroup".toList [col, interval, x] = some r ∧
      r.val = [] ∧ r.err = some ("error parsing fill value ".toList ++ x) ∧
      r.query.Model "fill" = some (.bool true) ∧
      r.query.Model "fillInterval" = some (.float64 (.finite n)) ∧
      r.query.Model "fillNull" = q.Model "fillNull" ∧
      r.query.Model "fillValue" = q.Model "fillValue") ∧
    (∀ (sql : List Char) (pre post : List (List Char × List (List Char))),
      invocations sql = pre ++ ("__timeGroup".toList, [col, interval, x]) :: post →
      ∃ r, Interpolate lib q tr sql = some r ∧ r.err ≠ none ∧ r.val = [] ∧
        ((∀ inv ∈ pre ++ post, ¬(inv.1 = "__timeGroup".toList ∧ inv.2.length = 3)) →
          r.query.Model "fill" = some (.bool true) ∧
          r.query.Model "fillInterval" = some (.float64 (.finite n)) ∧
          r.query.Model "fillNull" = q.Model "fillNull" ∧
          r.query.Model "fillValue" = q.Model "fillValue")) := by
  constructor
  · refine ⟨_, evaluateMacro_eq_some lib tr q _ _, ?_⟩
    rw [evalD_timeGroup_bad_fill lib tr q col interval x n hn hx hf]
    simp [Json.Set]
  · intro sql pre post hinv
    obtain ⟨r, hI, he, hq, hval⟩ := Interpolate_query lib q tr sql
    have hfail : r.err ≠ none := by
      rw [he]
      intro hnone
      rw [List.findSome?_eq_none_iff] at hnone
      have := hnone ("__timeGroup".toList, [col, interval, x]) (by rw [hinv]; simp)
      simp only at this
      rw [evalD_timeGroup_bad_fill lib tr emptyQuery col interval x n hn hx hf] at this
      cases this
    refine ⟨r, hI, hfail, hval hfail, ?_⟩
    intro hother
    have hpre : ∀ inv ∈ pre, ¬(inv.1 = "__timeGroup".toList ∧ inv.2.length = 3) :=
      fun inv hi => hother inv (List.mem_append_left _ hi)
    have hpost : ∀ inv ∈ post, ¬(inv.1 = "__timeGroup".toList ∧ inv.2.length = 3) :=
      fun inv hi => hother inv (List.mem_append_right _ hi)
    have hquery : r.query = ⟨(q.Model.Set "fill" (.bool true)).Set "fillInterval"
        (.float64 (.finite n))⟩ := by
      rw [hq, hinv, List.foldl_append, List.foldl_cons, foldl_query_frame lib tr post hpost,
        foldl_query_frame lib tr pre hpre]
      simp only
      rw [evalD_timeGroup_bad_fill lib tr q col interval x n hn hx hf]
    rw [hquery]
    simp [Json.Set]

/-- C16, amended, at `select $__timeGroup(ts,'1m',abc) from t` over a context that holds
`format`: the call fails, `fill` and `fillInterval = 60` are written, `fillNull` and
`fillValue` are absent as before. -/
theorem C16_partial_writes_kept_witness :
    (refLib.ParseDuration (strings.Trim "'1m'".toList [squote, dquote])
      = some (60 * 1000000000) ∧
     "abc".toList ≠ "NULL".toList ∧ refLib.ParseFloat "abc".toList = none) ∧
    (∃ r, evaluateMacro refLib ⟨1000, 2000⟩ sampleQuery "__timeGroup".toList
        ["ts".toList, "'1m'".toList, "abc".toList] = some r ∧
      r.val = [] ∧ r.err = some "error parsing fill value abc".toList ∧
      r.query.Model "fill" = some (.bool true) ∧
      r.query.Model "fillInterval" = some (.float64 (.finite 60)) ∧
      r.query.Model "fillNull" = none ∧
      r.query.Model "fillValue" = none) ∧
    ∃ r, Interpolate refLib sampleQuery ⟨1000, 2000⟩
        "select $__timeGroup(ts,'1m',abc) from t".toList = some r ∧
      r.err ≠ none ∧ r.val = [] ∧
      r.query.Model "fill" = some (.bool true) ∧
      r.query.Model "fillInterval" = some (.float64 (.finite 60)) ∧
      r.query.Model "fillNull" = none ∧
      r.query.Model "fillValue" = none :=
  ⟨⟨by decide, by decide, by decide⟩,
   (C16_partial_writes_kept refLib ⟨1000, 2000⟩ sampleQuery "ts".toList "'1m'".toList
      "abc".toList 60 (by decide) (by decide) (by decide)).1,
   ((C16_partial_writes_kept refLib ⟨1000, 2000⟩ sampleQuery "ts".toList "'1m'".toList
      "abc".toList 60 (by decide) (by decide) (by decide)).2
      "select $__timeGroup(ts,'1m',abc) from t".toList [] [] (by decide)).imp
     (fun _ h => ⟨h.1, h.2.1, h.2.2.1, h.2.2.2 (by decide)⟩)⟩

theorem scanFrom_mem (n : Nat) : ∀ (s : List Char) (pos : Nat), s.length ≤ n →
    ∀ m ∈ scanFrom 0 pos s, m.name ≠ [] ∧ (∀ c ∈ m.name, isIdentifierChar c = true) ∧
      ')' ∉ m.args ∧ ∃ pre post, s = pre ++ (m.text ++ post) ∧ m.start = pos + pre.length := by
  induction n with
  | zero =>
    intro s pos hs m hm
    have : s = [] := List.eq_nil_of_length_eq_zero (Nat.le_zero.mp hs)
    subst this
    simp [scanFrom] at hm
  | succ n ih =>
    intro s pos hs m hm
    cases s with
    | nil => simp [scanFrom] at hm
    | cons c cs =>
      cases hmatch : matchHere (c :: cs) with
      | none =>
        rw [scanFrom_cons_none pos hmatch] at hm
        obtain ⟨h1, h2, h3, pre, post, hcs, hstart⟩ :=
          ih cs (pos + 1) (by simpa using hs) m hm
        refine ⟨h1, h2, h3, c :: pre, post, by rw [hcs]; rfl, ?_⟩
        rw [hstart, List.length_cons]
        omega
      | some na =>
        obtain ⟨name, args⟩ := na
        obtain ⟨tl, htl, hn, hid, ha⟩ := matchHere_eq_some hmatch
        have hcs : cs = name ++ '(' :: (args ++ ')' :: tl) := by
          simp only [List.cons.injEq] at htl
          exact htl.2
        have hdrop : cs.drop (name.length + args.length + 2) = tl := by
          rw [hcs]
          have : name ++ '(' :: (args ++ ')' :: tl) = (name ++ '(' :: (args ++ [')'])) ++ tl := by
            simp
          rw [this]
          apply List.drop_left'
          simp
          omega
        rw [scanFrom_cons_some pos hmatch, hdrop] at hm
        have htext : c :: cs = Span.text ⟨pos, name, args⟩ ++ tl := by
          rw [htl]
          simp [Span.text]
        rcases List.mem_cons.mp hm with rfl | hm
        · exact ⟨hn, hid, ha, [], tl, by rw [htext]; rfl, by simp⟩
        · obtain ⟨h1, h2, h3, pre, post, htl2, hstart⟩ :=
            ih tl (pos + name.length + args.length + 3)
              (by rw [hcs] at hs; simp at hs; omega) m hm
          refine ⟨h1, h2, h3, Span.text ⟨pos, name, args⟩ ++ pre, post, ?_, ?_⟩
          · rw [htext, htl2]
            simp
          · rw [hstart]
            simp [Span.text]
            omega

theorem spans_mem (sql : List Char) (m : Span) (hm : m ∈ spans sql) :
    m.name ≠ [] ∧ (∀ c ∈ m.name, isIdentifierChar c = true) ∧ ')' ∉ m.args ∧
      ∃ pre post, sql = pre ++ (m.text ++ post) ∧ m.start = pre.length := by
  obtain ⟨h1, h2, h3, pre, post, hs, hstart⟩ :=
    scanFrom_mem sql.length sql 0 (Nat.le_refl _) m hm
  exact ⟨h1, h2, h3, pre, post, hs, by simpa using hstart⟩

/-- C17: in every matched span the raw argument text holds no `)` and the span is
`$name(args)` closed by the first `)` after the opening parenthesis; so an argument with
a parenthesised expression is cut there and what follows is literal text:
`$__timeFilter(f(x))` is evaluated with the one token `f(x` and its replacement is
followed by a literal `)`. -/
theorem C17_span_ends_at_first_paren (sql : List Char) (m : Span) (hm : m ∈ spans sql) :
    (')' ∉ m.args ∧
      ∃ pre post, sql = pre ++ ('$' :: (m.name ++ '(' :: (m.args ++ ')' :: post))) ∧
        pre.length = m.start) ∧
    spans "$__timeFilter(f(x))".toList = [⟨0, "__timeFilter".toList, "f(x".toList⟩] ∧
    invocations "$__timeFilter(f(x))".toList = [("__timeFilter".toList, ["f(x".toList])] ∧
    Interpolate refLib emptyQuery ⟨1000, 2000⟩ "$__timeFilter(f(x))".toList
      = some ⟨"f(x >= FROM_UNIXTIME(1000) AND f(x <= FROM_UNIXTIME(2000))".toList, none,
          emptyQuery⟩ := by
  refine ⟨?_, by decide, by decide, by rfl⟩
  obtain ⟨-, -, h3, pre, post, hs, hstart⟩ := spans_mem sql m hm
  refine ⟨h3, pre, post, ?_, hstart.symm⟩
  rw [hs]
  simp [Span.text]

/-- C17, at the span of `select $__timeFilter(f(x)) from t`, which stops after `f(x`. -/
theorem C17_span_ends_at_first_paren_witness :
    (⟨7, "__timeFilter".toList, "f(x".toList⟩ : Span) ∈
      spans "select $__timeFilter(f(x)) from t".toList ∧
    ')' ∉ "f(x".toList ∧
    ∃ pre post, "select $__timeFilter(f(x)) from t".toList
        = pre ++ ('$' :: ("__timeFilter".toList ++ '(' :: ("f(x".toList ++ ')' :: post))) ∧
      pre.length = 7 :=
  ⟨by decide,
   (C17_span_ends_at_first_paren "select $__timeFilter(f(x)) from t".toList
      ⟨7, "__timeFilter".toList, "f(x".toList⟩ (by decide)).1.1,
   (C17_span_ends_at_first_paren "select $__timeFilter(f(x)) from t".toList
      ⟨7, "__timeFilter".toList, "f(x".toList⟩ (by decide)).1.2⟩

/-- C18: for every template, time range and context `Interpolate` returns, without
panic, either a SQL string or an error with the empty string; every handler returns for
every argument list, the empty one too; and for every match the capture groups are cut
out within bounds and the closure returns on them. -/
theorem C18_no_panic (lib : GoLib) (q : Query) (tr : TimeRange) (sql : List Char) :
    (∃ r, Interpolate lib q tr sql = some r ∧ (r.err = none ∨ r.val = [])) ∧
    (∀ (q1 : Query) (name : List Char) (args : List (List Char)),
      ∃ r, evaluateMacro lib tr q1 name args = some r) ∧
    (∀ v ∈ FindAllSubmatchIndex sql, ∃ whole name raw,
      buildGroups sql v = some [whole, name, raw] ∧
      ∀ st, ∃ out, Interpolate.repl lib tr [whole, name, raw] st = some out) := by
  refine ⟨?_, fun q1 name args => ⟨_, evaluateMacro_eq_some lib tr q1 name args⟩, ?_⟩
  · obtain ⟨r, hI, -, -, hval⟩ := Interpolate_query lib q tr sql
    refine ⟨r, hI, ?_⟩
    by_cases h : r.err = none
    · exact Or.inl h
    · exact Or.inr (hval h)
  · intro v hv
    obtain ⟨m, hm, rfl⟩ := List.mem_map.mp hv
    obtain ⟨-, -, -, pre, post, hs, hstart⟩ := spans_mem sql m hm
    exact ⟨m.text, m.name, m.args, buildGroups_indices pre post hs hstart,
      fun st => ⟨_, repl_eq_step lib tr m st⟩⟩

/-- C20 on the code: when every one of two or more value tokens is a `NULL` sentinel,
`__wherein` succeeds with an empty list, `col in () or T IS NULL`, where the claim has
at least one value in the list; `$__wherein(c, NULL, NULL)` expands to
`c in () or c IS NULL`. With a single sentinel the sibling branch gives `col IS NULL`,
and when some value token is no sentinel the list is not empty. -/
theorem C20_wherein_empty_list (lib : GoLib) (tr : TimeRange) (q : Query) (col : List Char) :
    (∀ values : List (List Char), 2 ≤ values.length →
      (∀ v ∈ values, v = "NULL".toList ∨ v = "'NULL'".toList) →
      evaluateMacro lib tr q "__wherein".toList (col :: values)
        = some ⟨whereinColumn col ++ " in () or ".toList ++ col ++ " IS NULL".toList,
            none, q⟩) ∧
    evaluateMacro lib tr q "__wherein".toList [col, "NULL".toList]
      = some ⟨whereinColumn col ++ " IS NULL".toList, none, q⟩ ∧
    Interpolate refLib emptyQuery ⟨1000, 2000⟩ "$__wherein(c, NULL, NULL)".toList
      = some ⟨"c in () or c IS NULL".toList, none, emptyQuery⟩ ∧
    (∀ values : List (List Char),
      (∃ v ∈ values, v ≠ "NULL".toList ∧ v ≠ "'NULL'".toList) →
      (values.filter (fun v => !isNullToken v)).map whereinQuote ≠ []) := by
  refine ⟨?_, ?_, by rfl, ?_⟩
  · intro values hlen hall
    rcases values with _ | ⟨v, _ | ⟨v2, rest⟩⟩
    · simp at hlen
    · simp at hlen
    · have hnull : ∀ w ∈ v :: v2 :: rest, isNullToken w = true :=
        fun w hw => decide_eq_true (hall w hw)
      have hany : (v :: v2 :: rest).any isNullToken = true :=
        List.any_eq_true.mpr ⟨v, List.mem_cons_self _ _, hnull v (List.mem_cons_self _ _)⟩
      have hfilter : (v :: v2 :: rest).filter (fun v => !isNullToken v) = [] := by
        rw [List.filter_eq_nil_iff]
        intro w hw
        simp [hnull w hw]
      rw [wherein_list lib tr q col v (v2 :: rest) (by simp), hany, hfilter]
      simp [strings.Join, List.intercalate]
  · have h1 : ¬(([] : List (List Char)) = [] ∧
        ("NULL".toList = "ALL".toList ∨ "NULL".toList = "'ALL'".toList)) := by decide
    rw [evaluateMacro_wherein, wherein_eq, if_neg h1, if_pos ⟨rfl, Or.inl rfl⟩]
    rfl
  · rintro values ⟨v, hv, h1, h2⟩ hnil
    rw [List.map_eq_nil_iff, List.filter_eq_nil_iff] at hnil
    have := hnil v hv
    have hn : isNullToken v = false := decide_eq_false (not_or.mpr ⟨h1, h2⟩)
    simp [hn] at this

end Mysql
